import Mathlib

/-! # serialization.h: a shallow embedding

The header `serialization/serialization.h` defines a type-directed binary codec over
`Stream = std::vector<char>`.  This file embeds it in Lean and proves properties of it.

Modelling conventions

* Host: LP64, little-endian, 8-bit `char` (`sizeof(size_t) = 8`, `sizeof(int) = 4`).
* A stream is the list of its bytes; `serialize` returns the stream after the call,
  `deserialize` returns the decoded value together with the stream after the call.
* C++ templates are instantiated over a closed universe `Ty` of types; a value of type `t`
  is an element of `t.denote`.  A value of a `std::is_trivial` type, `bool` included, is
  its object representation (`sizeof(T)` bytes), so equality of values is equality of
  representations and no floating point arithmetic is involved.
* Behaviour that the C++ standard leaves undefined (reading past the end of the stream,
  overflow of the signed loop counter) and the exception of `std::vector<T>(n)` are
  results `Except.error f`.
* `std::less<K>` and `std::equal_to<K>`, which `std::map` and `std::unordered_map` use,
  are not part of the header: they are the parameter `KeyOps`.
* Exhaustion of memory is not modelled.
-/

namespace serialization

/-! ## Bytes, streams, object representations -/

/-- One `char`. -/
abbrev Byte := Fin 256

/-- The type `Stream = std::vector<char>`, as the list of its bytes, front first. -/
abbrev Stream := List Byte

/-- The value `SIZE_MAX + 1` for the 64-bit `size_t`. -/
def SIZE_MOD : Nat := 2 ^ 64

/-- The value `PTRDIFF_MAX`; no object, and so no `std::vector` storage, is larger. -/
def PTRDIFF_MAX : Nat := 2 ^ 63 - 1

/-- The value `INT_MAX` for the 32-bit `int`. -/
def INT_MAX : Nat := 2147483647

/-- The ways in which a call ends without a defined result: undefined behaviour, after which
an execution may do anything, returning some value included, or an exception. -/
inductive Fault where
  /-- Undefined behaviour: bytes are read or erased past the end of the stream. -/
  | out_of_bounds
  /-- Undefined behaviour: `++i` on an `int` that holds `INT_MAX`. -/
  | signed_overflow
  /-- The exception thrown by `std::vector<T>(num)` when the storage for `num` elements
  would exceed `PTRDIFF_MAX` bytes: the construction of the result throws. -/
  | length_error
deriving DecidableEq, Repr

/-- The object representation of a value of a trivial type of size `n`: `n` bytes. -/
structure Obj (n : Nat) where
  bytes : List Byte
  size_eq : bytes.length = n
deriving DecidableEq, Repr

/-- What `std::ranges::copy_n(stream.begin(), n, reinterpret_cast<char*>(&out))` leaves in
`out`: the bytes at positions `0 .. n-1` of the stream (the callers check that there are
that many, so the default is never used). -/
def Obj.copy_n (n : Nat) (stream : Stream) : Obj n :=
  ⟨List.ofFn (fun i : Fin n => stream.getD i.val 0), List.length_ofFn _⟩

/-- The `i`-th byte of the little-endian representation of `n`. -/
def le_byte (n : Nat) (i : Nat) : Byte :=
  ⟨n / 256 ^ i % 256, Nat.mod_lt _ (by decide)⟩

/-- The object representation of the `size_t` value `n mod 2^64`. -/
def size_t_obj (n : Nat) : Obj 8 :=
  ⟨[le_byte n 0, le_byte n 1, le_byte n 2, le_byte n 3,
    le_byte n 4, le_byte n 5, le_byte n 6, le_byte n 7], rfl⟩

/-- The number that a little-endian run of bytes represents. -/
def le_value : List Byte → Nat
  | [] => 0
  | b :: bs => b.val + 256 * le_value bs

/-- The `size_t` value of an object representation. -/
def size_t_value (x : Obj 8) : Nat := le_value x.bytes

/-- The object representation of a `bool`. -/
def bool_obj (b : Bool) : Obj 1 := ⟨[if b then 1 else 0], rfl⟩

/-- The truth value of a `bool` object, as `if (x)` tests it: whether its byte is nonzero.
For a byte other than 0 and 1 the C++ standard fixes no value; the test of the byte against
zero is what an execution does. -/
def bool_truth (x : Obj 1) : Bool := decide (x.bytes ≠ [0])

/-- The member `std::vector<bool>::push_back(x)`: the new element is stored as one bit, set
when `x` is nonzero; read back, it is the object of `true` or of `false`. -/
def vector_bool_push_back (vec : List (Obj 1)) (x : Obj 1) : List (Obj 1) :=
  vec ++ [bool_obj (bool_truth x)]

/-! ## Types and values -/

/-- The types the dispatcher is instantiated at. -/
inductive Ty where
  /-- A type with `std::is_trivial<T>::value` other than `bool`, of size `sizeof`:
  `int`, `double`, `size_t`, `char`, plain aggregates of such. -/
  | trivial (sizeof : Nat)
  /-- The type `bool` (trivial, size 1; `std::vector<bool>` is specialised on it).  A value is
  the byte of the object; the elements of a `std::vector<bool>` are bits, the objects of
  `true` and `false`. -/
  | bool
  /-- The type `std::string`. -/
  | string
  /-- The test type `X`, which has a `serializer<X>` specialisation. -/
  | X
  /-- The type `std::vector<T>`. -/
  | vector (value_type : Ty)
  /-- The type `std::map<K, V>`. -/
  | map (key_type mapped_type : Ty)
  /-- The type `std::unordered_map<K, V>`. -/
  | unordered_map (key_type mapped_type : Ty)
deriving DecidableEq, Repr

/-- The type `int`. -/
abbrev Ty.int : Ty := .trivial 4
/-- The type `double`. -/
abbrev Ty.double : Ty := .trivial 8
/-- The type `size_t`. -/
abbrev Ty.size_t : Ty := .trivial 8
/-- The test type `struct X { explicit X(int x); int x; }`. -/
structure XObj where
  x : Obj 4
deriving DecidableEq, Repr

/-- The values of a type.  A vector is the list of its elements; a map is the list of its
entries in iteration order. -/
def Ty.denote : Ty → Type
  | .trivial n => Obj n
  | .bool => Obj 1
  | .string => List Byte
  | .X => XObj
  | .vector t => List t.denote
  | .map k v => List (k.denote × v.denote)
  | .unordered_map k v => List (k.denote × v.denote)

/-- Equality of values is decidable. -/
instance Ty.denote_decEq : (t : Ty) → DecidableEq t.denote
  | .trivial n => inferInstanceAs (DecidableEq (Obj n))
  | .bool => inferInstanceAs (DecidableEq (Obj 1))
  | .string => inferInstanceAs (DecidableEq (List Byte))
  | .X => inferInstanceAs (DecidableEq XObj)
  | .vector t =>
    have := Ty.denote_decEq t
    inferInstanceAs (DecidableEq (List t.denote))
  | .map k v =>
    have := Ty.denote_decEq k
    have := Ty.denote_decEq v
    inferInstanceAs (DecidableEq (List (k.denote × v.denote)))
  | .unordered_map k v =>
    have := Ty.denote_decEq k
    have := Ty.denote_decEq v
    inferInstanceAs (DecidableEq (List (k.denote × v.denote)))

/-- The comparison objects of the associative containers: `less t` is `std::less<T>`,
`equal_to t` is `std::equal_to<T>` (with a hash consistent with it). -/
structure KeyOps where
  less : (t : Ty) → t.denote → t.denote → Bool
  equal_to : (t : Ty) → t.denote → t.denote → Bool

/-! ## The associative containers -/

/-- The member `std::map<K, V>::emplace(k, v)`: the entries are kept in ascending key order
and nothing is inserted when an equivalent key (neither less than the other) is present. -/
def map_emplace {K V : Type} (less : K → K → Bool) (k : K) (v : V) :
    List (K × V) → List (K × V)
  | [] => [(k, v)]
  | e :: m =>
    if less k e.1 then (k, v) :: e :: m
    else if less e.1 k then e :: map_emplace less k v m
    else e :: m

/-- The member `std::unordered_map<K, V>::emplace(k, v)`: nothing is inserted when an equal
key is present.  The place of a new entry in the iteration order is unspecified; the model
puts it last. -/
def unordered_map_emplace {K V : Type} (equal_to : K → K → Bool) (k : K) (v : V)
    (m : List (K × V)) : List (K × V) :=
  if m.any (fun e => equal_to e.1 k) then m else m ++ [(k, v)]

/-! ## The loop statement -/

/-- The statement `for (int i = i0; i != num; ++i) body`, where `num` is a `size_t`, run
from the state `st`.  The counter only takes values in `0 .. INT_MAX`, for which the
conversion of `i` to `size_t` in `i != num` keeps the value; `++i` at `INT_MAX` is a signed
overflow. -/
def for_int {σ : Type} (num : Nat) (body : σ → Except Fault σ) (i : Nat) (st : σ) :
    Except Fault σ :=
  if i = num then .ok st
  else
    match body st with
    | .error f => .error f
    | .ok st' =>
      if i < INT_MAX then for_int num body (i + 1) st' else .error .signed_overflow
termination_by INT_MAX - i

namespace detail

/-! ## (de)serialize objects -/

/-- The overload `template <trivial_type T> serialize_object`: the `sizeof(T)` bytes of
the object are inserted at the end. -/
def serialize_object_trivial {n : Nat} (x : Obj n) (stream : Stream) : Stream :=
  stream ++ x.bytes

/-- The overload `template <trivial_type T> deserialize_object`: `sizeof(T)` bytes are
copied from the front and erased. -/
def deserialize_object_trivial (n : Nat) (stream : Stream) : Except Fault (Obj n × Stream) :=
  if n ≤ stream.length then .ok (Obj.copy_n n stream, stream.drop n)
  else .error .out_of_bounds

/-- The trivial overload of `serialize_object` at `T = bool`: the byte of the object is
inserted at the end. -/
def serialize_object_trivial_bool (b : Obj 1) (stream : Stream) : Stream :=
  serialize_object_trivial b stream

/-- The trivial overload of `deserialize_object` at `T = bool`: one byte is copied into the
object and erased, whatever the byte is. -/
def deserialize_object_trivial_bool (stream : Stream) : Except Fault (Obj 1 × Stream) :=
  deserialize_object_trivial 1 stream

/-- The call `serialize_object<size_t>(n, stream)`, which selects the trivial overload. -/
def serialize_size_t (n : Nat) (stream : Stream) : Stream :=
  serialize_object_trivial (size_t_obj n) stream

/-- The call `serialization::deserialize<size_t>(stream)`, which the dispatcher resolves
to the trivial overload of `deserialize_object`. -/
def deserialize_size_t (stream : Stream) : Except Fault (Nat × Stream) :=
  match deserialize_object_trivial 8 stream with
  | .error f => .error f
  | .ok (out, stream) => .ok (size_t_value out, stream)

/-- The specialisation `serialize_object<std::string>`. -/
def serialize_object_string (str : List Byte) (stream : Stream) : Stream :=
  let stream := serialize_size_t str.length stream
  stream ++ str

/-- The specialisation `deserialize_object<std::string>`. -/
def deserialize_object_string (stream : Stream) : Except Fault (List Byte × Stream) :=
  match deserialize_size_t stream with
  | .error f => .error f
  | .ok (len, stream) =>
    if len ≤ stream.length then .ok (stream.take len, stream.drop len)
    else .error .out_of_bounds

/-- The member `serializer<X>::serialize` of the tests: `serialize(x.x, stream)`. -/
def serializer_X_serialize (x : XObj) (stream : Stream) : Stream :=
  serialize_object_trivial x.x stream

/-- The member `serializer<X>::deserialize` of the tests: `X(deserialize<int>(stream))`. -/
def serializer_X_deserialize (stream : Stream) : Except Fault (XObj × Stream) :=
  match deserialize_object_trivial 4 stream with
  | .error f => .error f
  | .ok (x, stream) => .ok (⟨x⟩, stream)

/-- The primary template `serialize_object`, which calls `serializer<T>::serialize`. -/
def serialize_object (x : XObj) (stream : Stream) : Stream :=
  serializer_X_serialize x stream

/-- The primary template `deserialize_object`, which calls `serializer<T>::deserialize`. -/
def deserialize_object (stream : Stream) : Except Fault (XObj × Stream) :=
  serializer_X_deserialize stream

/-! ## (de)serialize vectors -/

/-- The primary template `serialize_vector`; `serialize_T` is `serialization::serialize`
at the element type. -/
def serialize_vector {α : Type} (serialize_T : α → Stream → Stream) (vec : List α)
    (stream : Stream) : Stream :=
  let stream := serialize_size_t vec.length stream
  vec.foldl (fun stream el => serialize_T el stream) stream

/-- The storage `vec.data()` of a vector of trivial objects: the representations of the
elements, one after the other. -/
def vector_data {n : Nat} : List (Obj n) → List Byte
  | [] => []
  | x :: vec => x.bytes ++ vector_data vec

/-- The overload `template <trivial_type T> serialize_vector`: the `sizeof(T) * vec.size()`
bytes of the storage are inserted as one block (the product does not wrap: the storage of
a vector is an object). -/
def serialize_vector_trivial {n : Nat} (vec : List (Obj n)) (stream : Stream) : Stream :=
  let stream := serialize_size_t vec.length stream
  stream ++ vector_data vec

/-- The specialisation `serialize_vector<bool>`; the call `serialize(b, stream)` in it is
the dispatcher at `bool`. -/
def serialize_vector_bool (vec : List (Obj 1)) (stream : Stream) : Stream :=
  let stream := serialize_size_t vec.length stream
  vec.foldl (fun stream b => serialize_object_trivial_bool b stream) stream

/-- The primary template `deserialize_vector`; `deserialize_T` is
`serialization::deserialize<T>`. -/
def deserialize_vector {α : Type} (deserialize_T : Stream → Except Fault (α × Stream))
    (stream : Stream) : Except Fault (List α × Stream) :=
  match deserialize_size_t stream with
  | .error f => .error f
  | .ok (num, stream) =>
    for_int num
      (fun st =>
        match deserialize_T st.2 with
        | .error f => .error f
        | .ok (el, stream) => .ok (st.1 ++ [el], stream))
      0 ([], stream)

/-- The overload `template <trivial_type T> deserialize_vector`: `std::vector<T>(num)` is
constructed (which throws when `num` elements exceed the greatest size of a vector; that the
memory is exhausted below that size is not modelled), `num * sizeof(T)` bytes are copied
into its storage and erased from the front of the stream. -/
def deserialize_vector_trivial (n : Nat) (stream : Stream) :
    Except Fault (List (Obj n) × Stream) :=
  match deserialize_size_t stream with
  | .error f => .error f
  | .ok (num, stream) =>
    if PTRDIFF_MAX < num * n then .error .length_error
    else if num * n ≤ stream.length then
      .ok ((List.range num).map (fun i => Obj.copy_n n (stream.drop (i * n))),
           stream.drop (num * n))
    else .error .out_of_bounds

/-- The specialisation `deserialize_vector<bool>`. -/
def deserialize_vector_bool (stream : Stream) : Except Fault (List (Obj 1) × Stream) :=
  match deserialize_size_t stream with
  | .error f => .error f
  | .ok (num, stream) =>
    for_int num
      (fun st =>
        match deserialize_object_trivial_bool st.2 with
        | .error f => .error f
        | .ok (b, stream) => .ok (vector_bool_push_back st.1 b, stream))
      0 ([], stream)

/-! ## (de)serialize maps -/

/-- The template `serialize_map`; the entries are visited in iteration order. -/
def serialize_map {K V : Type} (serialize_K : K → Stream → Stream)
    (serialize_V : V → Stream → Stream) (map : List (K × V)) (stream : Stream) : Stream :=
  let stream := serialize_size_t map.length stream
  map.foldl (fun stream e => serialize_V e.2 (serialize_K e.1 stream)) stream

/-- The template `deserialize_map`; `emplace` is the member `MapT::emplace`. -/
def deserialize_map {K V : Type} (deserialize_K : Stream → Except Fault (K × Stream))
    (deserialize_V : Stream → Except Fault (V × Stream))
    (emplace : K → V → List (K × V) → List (K × V)) (stream : Stream) :
    Except Fault (List (K × V) × Stream) :=
  match deserialize_size_t stream with
  | .error f => .error f
  | .ok (num, stream) =>
    for_int num
      (fun st =>
        match deserialize_K st.2 with
        | .error f => .error f
        | .ok (k, stream) =>
          match deserialize_V stream with
          | .error f => .error f
          | .ok (v, stream) => .ok (emplace k v st.1, stream))
      0 ([], stream)

/-! ## (de)serialize generic/vector/map specializations -/

/-- The overload of `serialize_vector` that the call
`serialize_vector<typename T::value_type>(x, stream)` selects. -/
def serialize_vector_at : (t : Ty) → (t.denote → Stream → Stream) → List t.denote →
    Stream → Stream
  | .trivial _, _, vec, stream => serialize_vector_trivial vec stream
  | .bool, _, vec, stream => serialize_vector_bool vec stream
  | _, serialize_T, vec, stream => serialize_vector serialize_T vec stream

/-- The overload of `deserialize_vector` that the call
`deserialize_vector<typename T::value_type>(stream)` selects. -/
def deserialize_vector_at : (t : Ty) → (Stream → Except Fault (t.denote × Stream)) →
    Stream → Except Fault (List t.denote × Stream)
  | .trivial n, _, stream => deserialize_vector_trivial n stream
  | .bool, _, stream => deserialize_vector_bool stream
  | _, deserialize_T, stream => deserialize_vector deserialize_T stream

/-- The overload set `detail::serialize`: a vector goes to `serialize_vector`, a map to
`serialize_map`, every other type to `serialize_object`. -/
def serialize : (t : Ty) → t.denote → Stream → Stream
  | .trivial _, x, stream => serialize_object_trivial x stream
  | .bool, x, stream => serialize_object_trivial_bool x stream
  | .string, x, stream => serialize_object_string x stream
  | .X, x, stream => serialize_object x stream
  | .vector t, x, stream => serialize_vector_at t (serialize t) x stream
  | .map k v, map, stream => serialize_map (serialize k) (serialize v) map stream
  | .unordered_map k v, map, stream => serialize_map (serialize k) (serialize v) map stream

/-- The overload set `detail::deserialize`. -/
def deserialize (ops : KeyOps) : (t : Ty) → Stream → Except Fault (t.denote × Stream)
  | .trivial n, stream => deserialize_object_trivial n stream
  | .bool, stream => deserialize_object_trivial_bool stream
  | .string, stream => deserialize_object_string stream
  | .X, stream => deserialize_object stream
  | .vector t, stream => deserialize_vector_at t (deserialize ops t) stream
  | .map k v, stream =>
    deserialize_map (deserialize ops k) (deserialize ops v) (map_emplace (ops.less k)) stream
  | .unordered_map k v, stream =>
    deserialize_map (deserialize ops k) (deserialize ops v)
      (unordered_map_emplace (ops.equal_to k)) stream

end detail

/-- The function template `serialization::serialize`. -/
def serialize (t : Ty) (x : t.denote) (stream : Stream) : Stream :=
  detail.serialize t x stream

/-- The function template `serialization::deserialize`. -/
def deserialize (ops : KeyOps) (t : Ty) (stream : Stream) : Except Fault (t.denote × Stream) :=
  detail.deserialize ops t stream

/-! ## The test case "multiple objects" -/

/-- The four values that one round of the test case writes: an `int`, a `double`, a
`std::vector<int>` and a `std::string`. -/
structure Cycle where
  a : Obj 4
  b : Obj 8
  c : List (Obj 4)
  d : List Byte
deriving DecidableEq, Repr

/-- The body of the first loop of the test case, for the values `x`. -/
def serialize_cycle (x : Cycle) (stream : Stream) : Stream :=
  let stream := serialize .int x.a stream
  let stream := serialize .double x.b stream
  let stream := serialize (.vector .int) x.c stream
  serialize .string x.d stream

/-- The first loop of the test case: one round for each entry of `xs`, in order. -/
def serialize_cycles (xs : List Cycle) (stream : Stream) : Stream :=
  xs.foldl (fun stream x => serialize_cycle x stream) stream

/-- The body of the second loop of the test case: the four calls of `deserialize`. -/
def deserialize_cycle (ops : KeyOps) (stream : Stream) : Except Fault (Cycle × Stream) :=
  match deserialize ops .int stream with
  | .error f => .error f
  | .ok (a, stream) =>
    match deserialize ops .double stream with
    | .error f => .error f
    | .ok (b, stream) =>
      match deserialize ops (.vector .int) stream with
      | .error f => .error f
      | .ok (c, stream) =>
        match deserialize ops .string stream with
        | .error f => .error f
        | .ok (d, stream) => .ok (⟨a, b, c, d⟩, stream)

/-- The second loop of the test case, `k` rounds. -/
def deserialize_cycles (ops : KeyOps) : Nat → Stream → Except Fault (List Cycle × Stream)
  | 0, stream => .ok ([], stream)
  | k + 1, stream =>
    match deserialize_cycle ops stream with
    | .error f => .error f
    | .ok (x, stream) =>
      match deserialize_cycles ops k stream with
      | .error f => .error f
      | .ok (xs, stream) => .ok (x :: xs, stream)

/-! ## Sample values -/

/-- The object representation of the `int` value `n`, for `0 ≤ n`. -/
def int_obj (n : Nat) : Obj 4 :=
  ⟨[le_byte n 0, le_byte n 1, le_byte n 2, le_byte n 3], rfl⟩

/-- The object representation of the `double` value `5.0`. -/
def double_5 : Obj 8 := ⟨[0, 0, 0, 0, 0, 0, 20, 64], rfl⟩

/-- The string `"test"`. -/
def test_string : List Byte := [116, 101, 115, 116]

/-- The values of one round of the test case "multiple objects". -/
def test_cycle : Cycle := ⟨int_obj 1, double_5, [int_obj 1, int_obj 2, int_obj 3], test_string⟩

/-- The order of `std::string`: lexicographic, by bytes. -/
def string_less : List Byte → List Byte → Bool
  | [], [] => false
  | [], _ :: _ => true
  | _ :: _, [] => false
  | a :: as, b :: bs => decide (a < b) || (decide (a = b) && string_less as bs)

/-- Comparison objects for the key types used in examples: strings are ordered
lexicographically, objects of unsigned integer types by value; equality is equality of
values. -/
def sample_ops : KeyOps where
  less := fun t =>
    match t with
    | .string => string_less
    | .trivial _ => fun a b => decide (le_value a.bytes < le_value b.bytes)
    | _ => fun _ _ => false
  equal_to := fun _ a b => decide (a = b)

/-! ## The values of the C++ types -/

/-- The storage of a vector of trivial objects is an object: it has at most `PTRDIFF_MAX`
bytes.  The storage of a `std::vector<bool>` is one bit per element: every element is the
object of `false` or of `true`. -/
def vector_storage_fits : (t : Ty) → List t.denote → Prop
  | .trivial n, vec => vec.length * n ≤ PTRDIFF_MAX
  | .bool, (vec : List (Obj 1)) => ∀ el ∈ vec, el = bool_obj false ∨ el = bool_obj true
  | _, _ => True

/-- The lists that represent values of the C++ types: the size of every container is a
`size_t`, the storage of a vector of trivial objects is an object, the entries of a
`std::map` are in strictly ascending key order and the keys of a `std::unordered_map` are
pairwise unequal. -/
def Ty.wf (ops : KeyOps) : (t : Ty) → t.denote → Prop
  | .trivial _, _ => True
  | .bool, _ => True
  | .string, str => str.length < SIZE_MOD
  | .X, _ => True
  | .vector t, (vec : List t.denote) =>
    vec.length < SIZE_MOD ∧ vector_storage_fits t vec ∧ ∀ el ∈ vec, Ty.wf ops t el
  | .map k v, (m : List (k.denote × v.denote)) =>
    m.length < SIZE_MOD ∧ (∀ e ∈ m, Ty.wf ops k e.1 ∧ Ty.wf ops v e.2)
      ∧ m.Pairwise (fun a b => ops.less k a.1 b.1 = true ∧ ops.less k b.1 a.1 = false)
  | .unordered_map k v, (m : List (k.denote × v.denote)) =>
    m.length < SIZE_MOD ∧ (∀ e ∈ m, Ty.wf ops k e.1 ∧ Ty.wf ops v e.2)
      ∧ m.Pairwise (fun a b => ops.equal_to k a.1 b.1 = false)

/-- The element types whose vectors are decoded by a loop with an `int` counter: all but
the trivial types other than `bool`. -/
def Ty.decoded_by_loop : Ty → Bool
  | .trivial _ => false
  | _ => true

/-- The values in which every container that is decoded by a loop with an `int` counter
has at most `INT_MAX` elements. -/
def Ty.within_int : (t : Ty) → t.denote → Prop
  | .vector t, (vec : List t.denote) =>
    (t.decoded_by_loop = true → vec.length ≤ INT_MAX) ∧ ∀ el ∈ vec, Ty.within_int t el
  | .map k v, (m : List (k.denote × v.denote)) =>
    m.length ≤ INT_MAX ∧ ∀ e ∈ m, Ty.within_int k e.1 ∧ Ty.within_int v e.2
  | .unordered_map k v, (m : List (k.denote × v.denote)) =>
    m.length ≤ INT_MAX ∧ ∀ e ∈ m, Ty.within_int k e.1 ∧ Ty.within_int v e.2
  | _, _ => True

/-- Whether the storage fits is decidable. -/
instance vector_storage_fits_decidable :
    (t : Ty) → (vec : List t.denote) → Decidable (vector_storage_fits t vec)
  | .trivial n, vec => inferInstanceAs (Decidable (vec.length * n ≤ PTRDIFF_MAX))
  | .bool, (vec : List (Obj 1)) =>
    inferInstanceAs (Decidable (∀ el ∈ vec, el = bool_obj false ∨ el = bool_obj true))
  | .string, _ => isTrue True.intro
  | .X, _ => isTrue True.intro
  | .vector _, _ => isTrue True.intro
  | .map _ _, _ => isTrue True.intro
  | .unordered_map _ _, _ => isTrue True.intro

/-- Whether a list represents a value of the C++ type is decidable. -/
instance Ty.wf_decidable (ops : KeyOps) : (t : Ty) → (x : t.denote) → Decidable (t.wf ops x)
  | .trivial _, _ => isTrue True.intro
  | .bool, _ => isTrue True.intro
  | .string, str => inferInstanceAs (Decidable (str.length < SIZE_MOD))
  | .X, _ => isTrue True.intro
  | .vector t, (vec : List t.denote) =>
    have := Ty.wf_decidable ops t
    inferInstanceAs (Decidable
      (vec.length < SIZE_MOD ∧ vector_storage_fits t vec ∧ ∀ el ∈ vec, Ty.wf ops t el))
  | .map k v, (m : List (k.denote × v.denote)) =>
    have := Ty.wf_decidable ops k
    have := Ty.wf_decidable ops v
    inferInstanceAs (Decidable
      (m.length < SIZE_MOD ∧ (∀ e ∈ m, Ty.wf ops k e.1 ∧ Ty.wf ops v e.2)
        ∧ m.Pairwise (fun (a b : k.denote × v.denote) => ops.less k a.1 b.1 = true ∧ ops.less k b.1 a.1 = false)))
  | .unordered_map k v, (m : List (k.denote × v.denote)) =>
    have := Ty.wf_decidable ops k
    have := Ty.wf_decidable ops v
    inferInstanceAs (Decidable
      (m.length < SIZE_MOD ∧ (∀ e ∈ m, Ty.wf ops k e.1 ∧ Ty.wf ops v e.2)
        ∧ m.Pairwise (fun (a b : k.denote × v.denote) => ops.equal_to k a.1 b.1 = false)))

/-- Whether the loop-decoded containers of a value stay within `INT_MAX` is decidable. -/
instance Ty.within_int_decidable : (t : Ty) → (x : t.denote) → Decidable (t.within_int x)
  | .trivial _, _ => isTrue True.intro
  | .bool, _ => isTrue True.intro
  | .string, _ => isTrue True.intro
  | .X, _ => isTrue True.intro
  | .vector t, (vec : List t.denote) =>
    have := Ty.within_int_decidable t
    inferInstanceAs (Decidable
      ((t.decoded_by_loop = true → vec.length ≤ INT_MAX) ∧ ∀ el ∈ vec, Ty.within_int t el))
  | .map k v, (m : List (k.denote × v.denote)) =>
    have := Ty.within_int_decidable k
    have := Ty.within_int_decidable v
    inferInstanceAs (Decidable
      (m.length ≤ INT_MAX ∧ ∀ e ∈ m, Ty.within_int k e.1 ∧ Ty.within_int v e.2))
  | .unordered_map k v, (m : List (k.denote × v.denote)) =>
    have := Ty.within_int_decidable k
    have := Ty.within_int_decidable v
    inferInstanceAs (Decidable
      (m.length ≤ INT_MAX ∧ ∀ e ∈ m, Ty.within_int k e.1 ∧ Ty.within_int v e.2))

/-! ## Values with more than `INT_MAX` elements -/

/-- The number `INT_MAX + 1` of elements. -/
def two_pow_31 : Nat := 2147483648

/-- A `std::vector<bool>` of `2^31` elements, all `true` (256 MiB of packed bits). -/
def vector_bool_2_31 : List (Obj 1) := List.replicate two_pow_31 (bool_obj true)

/-- A `std::vector<bool>` of `2^31` elements, all `false`. -/
def vector_false_2_31 : List (Obj 1) := List.replicate two_pow_31 (bool_obj false)

/-- A `std::vector<std::string>` of `2^31` empty strings. -/
def vector_string_2_31 : List (List Byte) := List.replicate two_pow_31 []

/-- A `std::vector<std::vector<int>>` of `2^31` empty vectors. -/
def vector_vector_int_2_31 : List (List (Obj 4)) := List.replicate two_pow_31 []

/-- A `std::map<size_t, bool>` with the `2^31` keys `0, 1, ..., 2^31 - 1`, in ascending
order, each mapped to `true`. -/
def map_size_t_bool_2_31 : List (Obj 8 × Obj 1) :=
  (List.range two_pow_31).map (fun i => (size_t_obj i, bool_obj true))

/-- A `std::unordered_map<size_t, bool>` with the `2^31` keys `0, 1, ..., 2^31 - 1`, each
mapped to `false`. -/
def unordered_map_size_t_bool_2_31 : List (Obj 8 × Obj 1) :=
  (List.range two_pow_31).map (fun i => (size_t_obj i, bool_obj false))

/-- The number `2^32` of elements. -/
def two_pow_32 : Nat := 4294967296

/-- A `std::vector<X>` of `2^32` elements `X(3)`. -/
def vector_X_2_32 : List XObj := List.replicate two_pow_32 ⟨int_obj 3⟩

/-- A `std::vector<bool>` of `2^32` elements, all `true` (512 MiB of packed bits). -/
def vector_bool_2_32 : List (Obj 1) := List.replicate two_pow_32 (bool_obj true)

/-! ## Inputs and comparison objects of `deserialize_map` -/

/-- A stream in the layout that `deserialize_map` reads: the count `ps.length`, then for
each pair of `ps`, in order, the encoding of the key and the encoding of the value.  The
keys of `ps` need not be distinct. -/
def pair_list_stream (k v : Ty) (ps : List (k.denote × v.denote)) : Stream :=
  detail.serialize_map (serialize k) (serialize v) ps []

/-- For the key type `k`, `std::less` is a strict total order and `std::equal_to` is
equality of values, as for strings and integers. -/
def KeyOps.lawful (ops : KeyOps) (k : Ty) : Prop :=
  (∀ a, ops.less k a a = false)
  ∧ (∀ a b c, ops.less k a b = true → ops.less k b c = true → ops.less k a c = true)
  ∧ (∀ a b, ops.less k a b = true ∨ a = b ∨ ops.less k b a = true)
  ∧ (∀ a b, ops.equal_to k a b = true ↔ a = b)

/-- The string `"one"`. -/
def string_one : List Byte := [111, 110, 101]

/-- The string `"two"`. -/
def string_two : List Byte := [116, 119, 111]

/-- A pair list with string keys and `int` values in which the key `"one"` occurs twice:
first with the value 1, last with the value 3. -/
def dup_pairs : List (List Byte × Obj 4) :=
  [(string_one, int_obj 1), (string_two, int_obj 2), (string_one, int_obj 3)]

/-! ## Kinds of faults -/

/-- The `std::map` that results from inserting the pairs `ps`, in this order, into an empty
map (`emplace`, `insert` and the constructor from an initializer list all keep the first
pair of a key). -/
def map_of_insertions {K V : Type} (less : K → K → Bool) (ps : List (K × V)) : List (K × V) :=
  ps.foldl (fun m e => map_emplace less e.1 e.2 m) []

/-- The string `"three"`. -/
def string_three : List Byte := [116, 104, 114, 101, 101]

/-- The pairs `("one", 1), ("two", 2), ("three", 3)` of the test cases. -/
def test_pairs : List (List Byte × Obj 4) :=
  [(string_one, int_obj 1), (string_two, int_obj 2), (string_three, int_obj 3)]

/-- The pairs of `test_pairs` in another order. -/
def test_pairs_reordered : List (List Byte × Obj 4) :=
  [(string_three, int_obj 3), (string_one, int_obj 1), (string_two, int_obj 2)]

/-! # Theorems -/

open detail

/-! ## Lemmas on object representations -/

theorem Obj.eq_of_bytes {n : Nat} {x y : Obj n} (h : x.bytes = y.bytes) : x = y := by
  cases x; cases y; cases h; rfl

theorem copy_n_bytes (n : Nat) (stream : Stream) (h : n ≤ stream.length) :
    (Obj.copy_n n stream).bytes = stream.take n := by
  simp only [Obj.copy_n]
  apply List.ext_getElem
  · simp [h]
  · intro i h1 h2
    simp at h1 h2
    have : i < stream.length := by omega
    simp [List.getD_eq_getElem?_getD, List.getElem_take, this]

theorem copy_n_append {n : Nat} (x : Obj n) (rest : Stream) :
    Obj.copy_n n (x.bytes ++ rest) = x := by
  apply Obj.eq_of_bytes
  rw [copy_n_bytes _ _ (by simp [x.size_eq])]
  exact List.take_left' x.size_eq

theorem size_t_value_obj (n : Nat) : size_t_value (size_t_obj n) = n % SIZE_MOD := by
  simp only [size_t_value, size_t_obj, le_value, le_byte, SIZE_MOD]
  omega

theorem size_t_value_obj_of_lt {n : Nat} (h : n < SIZE_MOD) :
    size_t_value (size_t_obj n) = n := by
  rw [size_t_value_obj, Nat.mod_eq_of_lt h]

/-! ## Lemmas on the loop statement -/

theorem for_int_done {σ : Type} (num : Nat) (body : σ → Except Fault σ) (st : σ) :
    for_int num body num st = .ok st := by
  rw [for_int]; simp

theorem for_int_step {σ : Type} {num : Nat} {body : σ → Except Fault σ} {i : Nat} {st st' : σ}
    (hne : i ≠ num) (hb : body st = .ok st') (hi : i < INT_MAX) :
    for_int num body i st = for_int num body (i + 1) st' := by
  rw [for_int]; simp [hne, hb, hi]

theorem for_int_overflow {σ : Type} {num : Nat} {body : σ → Except Fault σ} {i : Nat}
    {st st' : σ} (hne : i ≠ num) (hb : body st = .ok st') (hi : ¬ i < INT_MAX) :
    for_int num body i st = .error .signed_overflow := by
  rw [for_int]; simp [hne, hb, hi]

/-- A loop whose body consumes the encodings of the items `xs` one by one runs to the end
when the counter stays in range. -/
theorem for_int_items {σ ι : Type} (num : Nat) (body : σ × Stream → Except Fault (σ × Stream))
    (enc : ι → Stream) (step : σ → ι → σ) (xs : List ι)
    (hbody : ∀ x ∈ xs, ∀ acc rest, body (acc, enc x ++ rest) = .ok (step acc x, rest))
    (i : Nat) (acc : σ) (rest : Stream) (hi : i + xs.length = num) (hnum : num ≤ INT_MAX) :
    for_int num body i (acc, (xs.map enc).flatten ++ rest) = .ok (xs.foldl step acc, rest) := by
  induction xs generalizing i acc with
  | nil =>
    simp at hi
    subst hi
    simpa using for_int_done i body (acc, rest)
  | cons x xs ih =>
    simp only [List.length_cons] at hi
    have hb := hbody x (List.mem_cons_self _ _) acc ((xs.map enc).flatten ++ rest)
    simp only [List.map_cons, List.flatten_cons, List.append_assoc, List.foldl_cons]
    rw [for_int_step (by omega) hb (by omega)]
    exact ih (fun y hy => hbody y (List.mem_cons_of_mem _ hy)) (i + 1) (step acc x) (by omega)

/-- A loop whose count exceeds `INT_MAX` and whose body finds enough items overflows its
counter. -/
theorem for_int_items_overflow {σ ι : Type} (num : Nat)
    (body : σ × Stream → Except Fault (σ × Stream))
    (enc : ι → Stream) (step : σ → ι → σ) (xs : List ι)
    (hbody : ∀ x ∈ xs, ∀ acc rest, body (acc, enc x ++ rest) = .ok (step acc x, rest))
    (i : Nat) (acc : σ) (rest : Stream) (hi : i ≤ INT_MAX) (hxs : INT_MAX < i + xs.length)
    (hnum : INT_MAX < num) :
    for_int num body i (acc, (xs.map enc).flatten ++ rest) = .error .signed_overflow := by
  induction xs generalizing i acc with
  | nil => simp at hxs; omega
  | cons x xs ih =>
    simp only [List.length_cons] at hxs
    have hb := hbody x (List.mem_cons_self _ _) acc ((xs.map enc).flatten ++ rest)
    simp only [List.map_cons, List.flatten_cons, List.append_assoc]
    by_cases h : i < INT_MAX
    · rw [for_int_step (by omega) hb h]
      exact ih (fun y hy => hbody y (List.mem_cons_of_mem _ hy)) (i + 1) (step acc x)
        (by omega) (by omega)
    · exact for_int_overflow (by omega) hb h

/-! ## Lemmas on `serialize` -/

theorem foldl_serialize {α : Type} (f : α → Stream → Stream)
    (hf : ∀ a s, f a s = s ++ f a []) (xs : List α) (s : Stream) :
    xs.foldl (fun s a => f a s) s = s ++ (xs.map (fun a => f a [])).flatten := by
  induction xs generalizing s with
  | nil => simp
  | cons x xs ih =>
    simp only [List.foldl_cons, List.map_cons, List.flatten_cons]
    rw [ih, hf]
    simp

theorem serialize_size_t_eq (n : Nat) (s : Stream) :
    serialize_size_t n s = s ++ (size_t_obj n).bytes := rfl

theorem serialize_vector_eq {α : Type} (f : α → Stream → Stream)
    (hf : ∀ a s, f a s = s ++ f a []) (vec : List α) (s : Stream) :
    serialize_vector f vec s
      = s ++ ((size_t_obj vec.length).bytes ++ (vec.map (fun a => f a [])).flatten) := by
  simp only [serialize_vector, serialize_size_t_eq]
  rw [foldl_serialize f hf]
  simp

theorem serialize_vector_bool_eq (vec : List (Obj 1)) (s : Stream) :
    serialize_vector_bool vec s
      = s ++ ((size_t_obj vec.length).bytes ++ (vec.map (fun b => b.bytes)).flatten) := by
  simp only [serialize_vector_bool, serialize_size_t_eq]
  rw [foldl_serialize serialize_object_trivial_bool (fun a s => by
    simp [serialize_object_trivial_bool, serialize_object_trivial])]
  simp [serialize_object_trivial_bool, serialize_object_trivial]

theorem serialize_vector_trivial_eq {n : Nat} (vec : List (Obj n)) (s : Stream) :
    serialize_vector_trivial vec s = s ++ ((size_t_obj vec.length).bytes ++ vector_data vec) := by
  simp [serialize_vector_trivial, serialize_size_t_eq]

theorem serialize_map_eq {K V : Type} (fk : K → Stream → Stream) (fv : V → Stream → Stream)
    (hk : ∀ a s, fk a s = s ++ fk a []) (hv : ∀ a s, fv a s = s ++ fv a [])
    (map : List (K × V)) (s : Stream) :
    serialize_map fk fv map s
      = s ++ ((size_t_obj map.length).bytes
          ++ (map.map (fun e => fk e.1 [] ++ fv e.2 [])).flatten) := by
  simp only [serialize_map, serialize_size_t_eq]
  rw [foldl_serialize (fun (e : K × V) s => fv e.2 (fk e.1 s)) (fun e s => by
    show fv e.2 (fk e.1 s) = s ++ fv e.2 (fk e.1 [])
    rw [hv, hk, hv e.2 (fk e.1 [])]; simp)]
  simp only [List.append_assoc, List.append_cancel_left_eq]
  congr 2
  funext e
  rw [hv]

theorem serialize_vector_at_append (t : Ty) (f : t.denote → Stream → Stream)
    (hf : ∀ a s, f a s = s ++ f a []) (vec : List t.denote) (s : Stream) :
    serialize_vector_at t f vec s = s ++ serialize_vector_at t f vec [] := by
  cases t <;> simp only [serialize_vector_at]
  case trivial n => rw [serialize_vector_trivial_eq, serialize_vector_trivial_eq vec []]; simp
  case bool => rw [serialize_vector_bool_eq, serialize_vector_bool_eq vec []]; simp
  all_goals rw [serialize_vector_eq f hf, serialize_vector_eq f hf vec []]; simp

theorem detail_serialize_append (t : Ty) (x : t.denote) (s : Stream) :
    detail.serialize t x s = s ++ detail.serialize t x [] := by
  induction t generalizing s with
  | trivial n => simp [detail.serialize, serialize_object_trivial]
  | bool => simp [detail.serialize, serialize_object_trivial_bool, serialize_object_trivial]
  | string =>
    simp [detail.serialize, serialize_object_string, serialize_size_t_eq]
  | X =>
    simp [detail.serialize, serialize_object, serializer_X_serialize, serialize_object_trivial]
  | vector t ih =>
    simp only [detail.serialize]
    exact serialize_vector_at_append t _ (fun a s => ih a s) x s
  | map k v ihk ihv =>
    simp only [detail.serialize]
    rw [serialize_map_eq _ _ (fun a s => ihk a s) (fun a s => ihv a s),
      serialize_map_eq _ _ (fun a s => ihk a s) (fun a s => ihv a s) x []]
    simp
  | unordered_map k v ihk ihv =>
    simp only [detail.serialize]
    rw [serialize_map_eq _ _ (fun a s => ihk a s) (fun a s => ihv a s),
      serialize_map_eq _ _ (fun a s => ihk a s) (fun a s => ihv a s) x []]
    simp

/-- C4: `serialize` is append-only. For every type `t`, value `x` and prior stream content `s`,
the stream after `serialize(x, stream)` is `s` followed by the bytes that `serialize` appends
to an empty stream, which depend on `x` alone; the bytes of `s` are kept, in place. -/
theorem serialize_append_only (t : Ty) (x : t.denote) (s : Stream) :
    serialize t x s = s ++ serialize t x [] :=
  detail_serialize_append t x s

/-! ## Lemmas on `deserialize` of objects -/

theorem deserialize_object_trivial_append {n : Nat} (x : Obj n) (rest : Stream) :
    deserialize_object_trivial n (x.bytes ++ rest) = .ok (x, rest) := by
  have hlen : n ≤ (x.bytes ++ rest).length := by simp [x.size_eq]
  simp only [deserialize_object_trivial, if_pos hlen, copy_n_append]
  rw [List.drop_left' x.size_eq]

theorem deserialize_size_t_append {n : Nat} (h : n < SIZE_MOD) (rest : Stream) :
    deserialize_size_t ((size_t_obj n).bytes ++ rest) = .ok (n, rest) := by
  simp only [deserialize_size_t, deserialize_object_trivial_append, size_t_value_obj_of_lt h]

theorem deserialize_object_trivial_bool_append (b : Obj 1) (rest : Stream) :
    deserialize_object_trivial_bool (b.bytes ++ rest) = .ok (b, rest) :=
  deserialize_object_trivial_append b rest

theorem bool_obj_truth {b : Obj 1} (h : b = bool_obj false ∨ b = bool_obj true) :
    bool_obj (bool_truth b) = b := by
  rcases h with h | h <;> rw [h] <;> rfl

theorem foldl_vector_bool_push_back (vec acc : List (Obj 1))
    (h : ∀ el ∈ vec, el = bool_obj false ∨ el = bool_obj true) :
    vec.foldl vector_bool_push_back acc = acc ++ vec := by
  induction vec generalizing acc with
  | nil => simp
  | cons x vec ih =>
    have hx : vector_bool_push_back acc x = acc ++ [x] := by
      simp only [vector_bool_push_back, bool_obj_truth (h x (List.mem_cons_self _ _))]
    rw [List.foldl_cons, hx, ih _ (fun y hy => h y (List.mem_cons_of_mem _ hy))]
    simp

theorem deserialize_object_string_append {str : List Byte} (h : str.length < SIZE_MOD)
    (rest : Stream) :
    deserialize_object_string ((size_t_obj str.length).bytes ++ (str ++ rest))
      = .ok (str, rest) := by
  simp only [deserialize_object_string, deserialize_size_t_append h]
  simp

theorem length_vector_data {n : Nat} (vec : List (Obj n)) :
    (vector_data vec).length = vec.length * n := by
  induction vec with
  | nil => simp [vector_data]
  | cons x vec ih =>
    simp only [vector_data, List.length_append, List.length_cons, ih, x.size_eq, Nat.succ_mul]
    omega

theorem copy_n_vector_data {n : Nat} (vec : List (Obj n)) (rest : Stream) :
    (List.range vec.length).map (fun i => Obj.copy_n n ((vector_data vec ++ rest).drop (i * n)))
      = vec := by
  induction vec with
  | nil => simp
  | cons x vec ih =>
    simp only [List.length_cons, List.range_succ_eq_map, List.map_cons, List.map_map,
      vector_data, List.append_assoc]
    congr 1
    · simpa using copy_n_append x (vector_data vec ++ rest)
    · refine Eq.trans (List.map_congr_left ?_) ih
      intro i _
      simp only [Function.comp]
      have : (i + 1) * n = x.bytes.length + i * n := by rw [x.size_eq, Nat.succ_mul, Nat.add_comm]
      rw [this, List.drop_append]

theorem deserialize_vector_trivial_append {n : Nat} (vec : List (Obj n))
    (hsize : vec.length * n ≤ PTRDIFF_MAX) (hlen : vec.length < SIZE_MOD) (rest : Stream) :
    deserialize_vector_trivial n ((size_t_obj vec.length).bytes ++ (vector_data vec ++ rest))
      = .ok (vec, rest) := by
  simp only [deserialize_vector_trivial, deserialize_size_t_append hlen]
  rw [if_neg (by omega), if_pos (by simp [length_vector_data])]
  rw [copy_n_vector_data, ← length_vector_data, List.drop_left]

theorem vector_data_eq_flatten {n : Nat} (vec : List (Obj n)) :
    vector_data vec = (vec.map Obj.bytes).flatten := by
  induction vec with
  | nil => rfl
  | cons x vec ih => simp [vector_data, ih]

theorem length_size_t_bytes (n : Nat) : (size_t_obj n).bytes.length = 8 := (size_t_obj n).size_eq

/-- C8: for a string `str` of `L` bytes (`L` is a `size_t`), `serialize` appends the 8 bytes
that `serialize` appends for the `size_t` value `L`, which represent the number `L`, and then
the `L` bytes of `str` unchanged and in order: `8 + L` bytes in all. -/
theorem serialize_string_layout (str : List Byte) (s : Stream) (hL : str.length < SIZE_MOD) :
    serialize .string str s = s ++ serialize .size_t (size_t_obj str.length) [] ++ str
    ∧ (serialize .size_t (size_t_obj str.length) []).length = 8
    ∧ size_t_value (size_t_obj str.length) = str.length
    ∧ (serialize .string str s).length = s.length + (8 + str.length) := by
  refine ⟨?_, ?_, size_t_value_obj_of_lt hL, ?_⟩
  · simp [serialize, detail.serialize, serialize_object_string, serialize_size_t_eq,
      serialize_object_trivial]
  · simp [serialize, detail.serialize, serialize_object_trivial, length_size_t_bytes]
  · simp [serialize, detail.serialize, serialize_object_string, serialize_size_t_eq,
      length_size_t_bytes, Nat.add_assoc]

/-- The witness of C8: the string `"test"` appended to a stream that holds one byte. -/
theorem serialize_string_layout_witness :
    serialize .string test_string [9]
        = [9] ++ serialize .size_t (size_t_obj test_string.length) [] ++ test_string
    ∧ (serialize .size_t (size_t_obj test_string.length) []).length = 8
    ∧ size_t_value (size_t_obj test_string.length) = test_string.length
    ∧ (serialize .string test_string [9]).length = [9].length + (8 + test_string.length) :=
  serialize_string_layout test_string [9] (by decide)

/-- C9: for a vector `vec` of `N` objects of a trivial type of size `n` other than `bool` (a
vector value: `n` is at least 1 and the storage, `N * n` bytes, is an object), `serialize`
appends the 8 bytes of the count `N` and then the representations of the elements
as one block in element order, `8 + N * n` bytes in all; `deserialize` of a stream that holds
the count `N` and a tail of at least `N * n` further bytes returns `N` elements and removes the
count and exactly `N * n` further bytes, and on the encoding of `vec` it returns `vec`. -/
theorem serialize_vector_trivial_layout (ops : KeyOps) (n : Nat) (vec : List (Obj n))
    (s rest tail : Stream) (hn : 0 < n) (hsize : vec.length * n ≤ PTRDIFF_MAX)
    (htail : vec.length * n ≤ tail.length) :
    serialize (.vector (.trivial n)) vec s
        = s ++ serialize .size_t (size_t_obj vec.length) [] ++ (vec.map Obj.bytes).flatten
    ∧ size_t_value (size_t_obj vec.length) = vec.length
    ∧ (serialize (.vector (.trivial n)) vec s).length = s.length + (8 + vec.length * n)
    ∧ deserialize ops (.vector (.trivial n)) (serialize (.vector (.trivial n)) vec [] ++ rest)
        = .ok (vec, rest)
    ∧ ∃ elems, deserialize ops (.vector (.trivial n))
          (serialize .size_t (size_t_obj vec.length) [] ++ tail)
        = .ok (elems, tail.drop (vec.length * n)) ∧ elems.length = vec.length := by
  have hlen : vec.length < SIZE_MOD := by
    have h1 : vec.length ≤ vec.length * n := Nat.le_mul_of_pos_right _ hn
    have h2 : PTRDIFF_MAX < SIZE_MOD := by decide
    omega
  have hser : ∀ s, serialize (.vector (.trivial n)) vec s
      = s ++ ((size_t_obj vec.length).bytes ++ vector_data vec) := fun s => by
    simp [serialize, detail.serialize, serialize_vector_at, serialize_vector_trivial_eq]
  have hcnt : serialize .size_t (size_t_obj vec.length) [] = (size_t_obj vec.length).bytes := by
    simp [serialize, detail.serialize, serialize_object_trivial]
  refine ⟨?_, size_t_value_obj_of_lt hlen, ?_, ?_, ?_⟩
  · rw [hser, hcnt, vector_data_eq_flatten]; simp
  · rw [hser]; simp [length_size_t_bytes, length_vector_data]
  · rw [hser]
    simp only [deserialize, detail.deserialize, deserialize_vector_at, List.nil_append,
      List.append_assoc]
    exact deserialize_vector_trivial_append vec hsize hlen rest
  · rw [hcnt]
    simp only [deserialize, detail.deserialize, deserialize_vector_at,
      deserialize_vector_trivial, deserialize_size_t_append hlen]
    rw [if_neg (by omega), if_pos htail]
    exact ⟨_, rfl, by simp⟩

/-- The witness of C9: the vector `{1, 2, 3}` of `int`. -/
theorem serialize_vector_trivial_layout_witness :
    serialize (.vector (.trivial 4)) [int_obj 1, int_obj 2, int_obj 3] [9]
        = [9] ++ serialize .size_t (size_t_obj 3) []
            ++ ([int_obj 1, int_obj 2, int_obj 3].map Obj.bytes).flatten
    ∧ size_t_value (size_t_obj 3) = 3
    ∧ (serialize (.vector (.trivial 4)) [int_obj 1, int_obj 2, int_obj 3] [9]).length
        = 1 + (8 + 3 * 4)
    ∧ deserialize sample_ops (.vector (.trivial 4))
          (serialize (.vector (.trivial 4)) [int_obj 1, int_obj 2, int_obj 3] [] ++ [7])
        = .ok ([int_obj 1, int_obj 2, int_obj 3], [7])
    ∧ ∃ elems, deserialize sample_ops (.vector (.trivial 4))
          (serialize .size_t (size_t_obj 3) [] ++ [1, 0, 0, 0, 2, 0, 0, 0, 3, 0, 0, 0, 7, 7])
        = .ok (elems, [7, 7]) ∧ elems.length = 3 :=
  serialize_vector_trivial_layout sample_ops 4 [int_obj 1, int_obj 2, int_obj 3] [9] [7]
    [1, 0, 0, 0, 2, 0, 0, 0, 3, 0, 0, 0, 7, 7] (by decide) (by decide) (by decide)

/-! ## The test case "multiple objects" -/

theorem serialize_cycle_append (x : Cycle) (s : Stream) :
    serialize_cycle x s = s ++ serialize_cycle x [] := by
  simp only [serialize_cycle, serialize]
  rw [detail_serialize_append .string, detail_serialize_append (.vector .int),
    detail_serialize_append .double, detail_serialize_append .int,
    detail_serialize_append .string x.d (detail.serialize _ _ _),
    detail_serialize_append (.vector .int) x.c (detail.serialize _ _ _),
    detail_serialize_append .double x.b (detail.serialize _ _ _)]
  simp

theorem serialize_cycle_nil (x : Cycle) :
    serialize_cycle x [] = x.a.bytes ++ (x.b.bytes ++ ((size_t_obj x.c.length).bytes
      ++ (vector_data x.c ++ ((size_t_obj x.d.length).bytes ++ x.d)))) := by
  simp [serialize_cycle, serialize, detail.serialize, serialize_object_trivial,
    serialize_vector_at, serialize_vector_trivial_eq, serialize_object_string,
    serialize_size_t_eq]

theorem deserialize_cycle_append (ops : KeyOps) (x : Cycle)
    (hc : x.c.length * 4 ≤ PTRDIFF_MAX) (hd : x.d.length < SIZE_MOD) (rest : Stream) :
    deserialize_cycle ops (serialize_cycle x [] ++ rest) = .ok (x, rest) := by
  have hlen : x.c.length < SIZE_MOD := by
    have h2 : PTRDIFF_MAX < SIZE_MOD := by decide
    omega
  rw [serialize_cycle_nil]
  simp only [deserialize_cycle, deserialize, detail.deserialize, deserialize_vector_at,
    List.append_assoc, deserialize_object_trivial_append,
    deserialize_vector_trivial_append x.c hc hlen, deserialize_object_string_append hd]

theorem deserialize_cycles_append (ops : KeyOps) (xs : List Cycle)
    (h : ∀ x ∈ xs, x.c.length * 4 ≤ PTRDIFF_MAX ∧ x.d.length < SIZE_MOD) (rest : Stream) :
    deserialize_cycles ops xs.length ((xs.map (fun x => serialize_cycle x [])).flatten ++ rest)
      = .ok (xs, rest) := by
  induction xs with
  | nil => simp [deserialize_cycles]
  | cons x xs ih =>
    have hx := h x (List.mem_cons_self _ _)
    simp only [List.length_cons, List.map_cons, List.flatten_cons, List.append_assoc,
      deserialize_cycles, deserialize_cycle_append ops x hx.1 hx.2,
      ih (fun y hy => h y (List.mem_cons_of_mem _ hy))]

/-- C3: for every number of rounds and every choice of an `int`, a `double`, a vector of `int`
and a string per round (`xs`, values of their C++ types: the storage of each vector is an
object and the size of each string is a `size_t`), serializing the rounds into one initially
empty stream and then calling `deserialize<int>`, `deserialize<double>`,
`deserialize<std::vector<int>>`, `deserialize<std::string>` in the same order, once per
round, returns exactly those values in that order and ends with an empty stream. -/
theorem multiple_objects_round_trip (ops : KeyOps) (xs : List Cycle)
    (h : ∀ x ∈ xs, x.c.length * 4 ≤ PTRDIFF_MAX ∧ x.d.length < SIZE_MOD) :
    deserialize_cycles ops xs.length (serialize_cycles xs []) = .ok (xs, []) := by
  have hs : serialize_cycles xs [] = (xs.map (fun x => serialize_cycle x [])).flatten := by
    simp only [serialize_cycles]
    rw [foldl_serialize serialize_cycle serialize_cycle_append]
    simp
  rw [hs]
  simpa using deserialize_cycles_append ops xs h []

/-- The witness of C3: two rounds with the values of the test case. -/
theorem multiple_objects_round_trip_witness :
    deserialize_cycles sample_ops [test_cycle, test_cycle].length
        (serialize_cycles [test_cycle, test_cycle] [])
      = .ok ([test_cycle, test_cycle], []) :=
  multiple_objects_round_trip sample_ops [test_cycle, test_cycle] (by decide)

/-! ## Lemmas on `deserialize` of containers -/

theorem foldl_push_back {α : Type} (xs acc : List α) :
    xs.foldl (fun acc x => acc ++ [x]) acc = acc ++ xs := by
  induction xs generalizing acc with
  | nil => simp
  | cons x xs ih => simp [ih]

theorem deserialize_vector_append {α : Type} (de : Stream → Except Fault (α × Stream))
    (enc : α → Stream) (vec : List α)
    (hde : ∀ x ∈ vec, ∀ rest, de (enc x ++ rest) = .ok (x, rest))
    (hlen : vec.length ≤ INT_MAX) (rest : Stream) :
    deserialize_vector de ((size_t_obj vec.length).bytes ++ ((vec.map enc).flatten ++ rest))
      = .ok (vec, rest) := by
  have hlt : vec.length < SIZE_MOD := by
    have : INT_MAX < SIZE_MOD := by decide
    omega
  simp only [deserialize_vector, deserialize_size_t_append hlt]
  rw [for_int_items vec.length _ enc (fun acc x => acc ++ [x]) vec
    (fun x hx acc rest => by simp only [hde x hx rest]) 0 [] rest (by simp) hlen]
  simp [foldl_push_back]

theorem deserialize_vector_overflow {α : Type} (de : Stream → Except Fault (α × Stream))
    (enc : α → Stream) (vec : List α)
    (hde : ∀ x ∈ vec, ∀ rest, de (enc x ++ rest) = .ok (x, rest))
    (hlen : INT_MAX < vec.length) (hlt : vec.length < SIZE_MOD) (rest : Stream) :
    deserialize_vector de ((size_t_obj vec.length).bytes ++ ((vec.map enc).flatten ++ rest))
      = .error .signed_overflow := by
  simp only [deserialize_vector, deserialize_size_t_append hlt]
  refine for_int_items_overflow vec.length _ enc (fun acc x => acc ++ [x]) vec ?_ 0 [] rest
    (by decide) (by omega) hlen
  intro x hx acc rest
  simp only [hde x hx rest]

theorem deserialize_vector_bool_append (vec : List (Obj 1))
    (hbits : ∀ el ∈ vec, el = bool_obj false ∨ el = bool_obj true)
    (hlen : vec.length ≤ INT_MAX) (rest : Stream) :
    deserialize_vector_bool ((size_t_obj vec.length).bytes
        ++ ((vec.map (fun b => b.bytes)).flatten ++ rest))
      = .ok (vec, rest) := by
  have hlt : vec.length < SIZE_MOD := by
    have : INT_MAX < SIZE_MOD := by decide
    omega
  simp only [deserialize_vector_bool, deserialize_size_t_append hlt]
  rw [for_int_items vec.length _ (fun b => b.bytes) vector_bool_push_back vec
    (fun x hx acc rest => by simp only [deserialize_object_trivial_bool_append]) 0 [] rest
    (by simp) hlen]
  rw [foldl_vector_bool_push_back vec [] hbits, List.nil_append]

theorem deserialize_vector_bool_overflow (vec : List (Obj 1)) (hlen : INT_MAX < vec.length)
    (hlt : vec.length < SIZE_MOD) (rest : Stream) :
    deserialize_vector_bool ((size_t_obj vec.length).bytes
        ++ ((vec.map (fun b => b.bytes)).flatten ++ rest))
      = .error .signed_overflow := by
  simp only [deserialize_vector_bool, deserialize_size_t_append hlt]
  refine for_int_items_overflow vec.length _ (fun b => b.bytes)
    vector_bool_push_back vec ?_ 0 [] rest (by decide) (by omega) hlen
  intro x hx acc rest
  simp only [deserialize_object_trivial_bool_append]

theorem deserialize_map_append {K V : Type} (dk : Stream → Except Fault (K × Stream))
    (dv : Stream → Except Fault (V × Stream)) (emplace : K → V → List (K × V) → List (K × V))
    (enck : K → Stream) (encv : V → Stream) (m : List (K × V))
    (hdk : ∀ e ∈ m, ∀ rest, dk (enck e.1 ++ rest) = .ok (e.1, rest))
    (hdv : ∀ e ∈ m, ∀ rest, dv (encv e.2 ++ rest) = .ok (e.2, rest))
    (hlen : m.length ≤ INT_MAX) (rest : Stream) :
    deserialize_map dk dv emplace
        ((size_t_obj m.length).bytes ++ ((m.map (fun e => enck e.1 ++ encv e.2)).flatten ++ rest))
      = .ok (m.foldl (fun acc e => emplace e.1 e.2 acc) [], rest) := by
  have hlt : m.length < SIZE_MOD := by
    have : INT_MAX < SIZE_MOD := by decide
    omega
  simp only [deserialize_map, deserialize_size_t_append hlt]
  refine for_int_items m.length _ (fun e => enck e.1 ++ encv e.2)
    (fun acc e => emplace e.1 e.2 acc) m ?_ 0 [] rest (by simp) hlen
  intro e he acc rest
  simp only [List.append_assoc, hdk e he, hdv e he rest]

theorem deserialize_map_overflow {K V : Type} (dk : Stream → Except Fault (K × Stream))
    (dv : Stream → Except Fault (V × Stream)) (emplace : K → V → List (K × V) → List (K × V))
    (enck : K → Stream) (encv : V → Stream) (m : List (K × V))
    (hdk : ∀ e ∈ m, ∀ rest, dk (enck e.1 ++ rest) = .ok (e.1, rest))
    (hdv : ∀ e ∈ m, ∀ rest, dv (encv e.2 ++ rest) = .ok (e.2, rest))
    (hlen : INT_MAX < m.length) (hlt : m.length < SIZE_MOD) (rest : Stream) :
    deserialize_map dk dv emplace
        ((size_t_obj m.length).bytes ++ ((m.map (fun e => enck e.1 ++ encv e.2)).flatten ++ rest))
      = .error .signed_overflow := by
  simp only [deserialize_map, deserialize_size_t_append hlt]
  refine for_int_items_overflow m.length _ (fun e => enck e.1 ++ encv e.2)
    (fun acc e => emplace e.1 e.2 acc) m ?_ 0 [] rest (by decide) (by omega) hlen
  intro e he acc rest
  simp only [List.append_assoc, hdk e he, hdv e he rest]

/-! ## Lemmas on `emplace` -/

theorem map_emplace_last {K V : Type} (less : K → K → Bool) (k : K) (v : V) (m : List (K × V))
    (h : ∀ e ∈ m, less e.1 k = true ∧ less k e.1 = false) :
    map_emplace less k v m = m ++ [(k, v)] := by
  induction m with
  | nil => rfl
  | cons e m ih =>
    have he := h e (List.mem_cons_self _ _)
    simp only [map_emplace, he.1, he.2, if_true, Bool.false_eq_true, if_false, List.cons_append,
      ih (fun y hy => h y (List.mem_cons_of_mem _ hy))]

theorem foldl_map_emplace {K V : Type} (less : K → K → Bool) (m acc : List (K × V))
    (h : (acc ++ m).Pairwise (fun a b => less a.1 b.1 = true ∧ less b.1 a.1 = false)) :
    m.foldl (fun acc e => map_emplace less e.1 e.2 acc) acc = acc ++ m := by
  induction m generalizing acc with
  | nil => simp
  | cons e m ih =>
    simp only [List.foldl_cons]
    have hlast : map_emplace less e.1 e.2 acc = acc ++ [e] := by
      apply map_emplace_last
      intro a ha
      rw [List.pairwise_append] at h
      exact h.2.2 a ha e (List.mem_cons_self _ _)
    rw [hlast, ih (acc ++ [e]) (by simpa using h)]
    simp

theorem foldl_unordered_map_emplace {K V : Type} (eq : K → K → Bool) (m acc : List (K × V))
    (h : (acc ++ m).Pairwise (fun a b => eq a.1 b.1 = false)) :
    m.foldl (fun acc e => unordered_map_emplace eq e.1 e.2 acc) acc = acc ++ m := by
  induction m generalizing acc with
  | nil => simp
  | cons e m ih =>
    simp only [List.foldl_cons]
    have hlast : unordered_map_emplace eq e.1 e.2 acc = acc ++ [e] := by
      have hany : acc.any (fun a => eq a.1 e.1) = false := by
        rw [List.any_eq_false]
        intro a ha
        rw [List.pairwise_append] at h
        simp [h.2.2 a ha e (List.mem_cons_self _ _)]
      simp [unordered_map_emplace, hany]
    rw [hlast, ih (acc ++ [e]) (by simpa using h)]
    simp

/-! ## The round trip below the range of the loop counter -/

theorem deserialize_vector_at_append (ops : KeyOps) (t : Ty) (vec : List t.denote)
    (ih : ∀ el ∈ vec, ∀ rest,
      detail.deserialize ops t (detail.serialize t el [] ++ rest) = .ok (el, rest))
    (hlen : vec.length < SIZE_MOD) (hfits : vector_storage_fits t vec)
    (hint : t.decoded_by_loop = true → vec.length ≤ INT_MAX) (rest : Stream) :
    deserialize_vector_at t (detail.deserialize ops t)
        (serialize_vector_at t (detail.serialize t) vec [] ++ rest) = .ok (vec, rest) := by
  cases t with
  | trivial n =>
    simp only [serialize_vector_at, deserialize_vector_at, serialize_vector_trivial_eq,
      List.nil_append, List.append_assoc]
    exact deserialize_vector_trivial_append vec hfits hlen rest
  | bool =>
    simp only [serialize_vector_at, deserialize_vector_at, serialize_vector_bool_eq,
      List.nil_append, List.append_assoc]
    exact deserialize_vector_bool_append vec hfits (hint rfl) rest
  | string | X | vector _ | map _ _ | unordered_map _ _ =>
    simp only [serialize_vector_at, deserialize_vector_at]
    rw [serialize_vector_eq _ (fun a s => detail_serialize_append _ a s)]
    simp only [List.nil_append, List.append_assoc]
    exact deserialize_vector_append _ _ vec ih (hint rfl) rest

/-- The round trip of every value of every type, provided that the containers that are
decoded by a loop with an `int` counter have at most `INT_MAX` elements: `deserialize`
returns the value and leaves exactly the bytes that followed its encoding. -/
theorem deserialize_serialize (ops : KeyOps) (t : Ty) (x : t.denote) (hwf : t.wf ops x)
    (hint : t.within_int x) (rest : Stream) :
    detail.deserialize ops t (detail.serialize t x [] ++ rest) = .ok (x, rest) := by
  induction t generalizing rest with
  | trivial n =>
    simpa [detail.serialize, detail.deserialize, serialize_object_trivial]
      using deserialize_object_trivial_append x rest
  | bool =>
    simpa [detail.serialize, detail.deserialize, serialize_object_trivial_bool,
      serialize_object_trivial] using deserialize_object_trivial_bool_append x rest
  | string =>
    simp only [Ty.wf] at hwf
    simpa [detail.serialize, detail.deserialize, serialize_object_string, serialize_size_t_eq]
      using deserialize_object_string_append hwf rest
  | X =>
    cases x
    simp [detail.serialize, detail.deserialize, serialize_object, serializer_X_serialize,
      deserialize_object, serializer_X_deserialize, serialize_object_trivial,
      deserialize_object_trivial_append]
  | vector t ih =>
    simp only [Ty.wf] at hwf
    simp only [Ty.within_int] at hint
    simp only [detail.serialize, detail.deserialize]
    exact deserialize_vector_at_append ops t x
      (fun el hel rest => ih el (hwf.2.2 el hel) (hint.2 el hel) rest) hwf.1 hwf.2.1 hint.1 rest
  | map k v ihk ihv =>
    simp only [Ty.wf] at hwf
    simp only [Ty.within_int] at hint
    simp only [detail.serialize, detail.deserialize]
    rw [serialize_map_eq _ _ (fun a s => detail_serialize_append k a s)
      (fun a s => detail_serialize_append v a s)]
    simp only [List.nil_append, List.append_assoc]
    rw [deserialize_map_append _ _ _ (fun a => detail.serialize k a [])
      (fun a => detail.serialize v a []) x
      (fun e he rest => ihk e.1 (hwf.2.1 e he).1 (hint.2 e he).1 rest)
      (fun e he rest => ihv e.2 (hwf.2.1 e he).2 (hint.2 e he).2 rest) hint.1 rest]
    rw [foldl_map_emplace _ x [] (by simpa using hwf.2.2)]
    simp
  | unordered_map k v ihk ihv =>
    simp only [Ty.wf] at hwf
    simp only [Ty.within_int] at hint
    simp only [detail.serialize, detail.deserialize]
    rw [serialize_map_eq _ _ (fun a s => detail_serialize_append k a s)
      (fun a s => detail_serialize_append v a s)]
    simp only [List.nil_append, List.append_assoc]
    rw [deserialize_map_append _ _ _ (fun a => detail.serialize k a [])
      (fun a => detail.serialize v a []) x
      (fun e he rest => ihk e.1 (hwf.2.1 e he).1 (hint.2 e he).1 rest)
      (fun e he rest => ihv e.2 (hwf.2.1 e he).2 (hint.2 e he).2 rest) hint.1 rest]
    rw [foldl_unordered_map_emplace _ x [] (by simpa using hwf.2.2)]
    simp

/-! ## Containers with more than `INT_MAX` elements -/

/-- A vector that is decoded by the loop with the `int` counter and has more than `INT_MAX`
elements is not decoded: after the element of index `INT_MAX` the counter overflows. -/
theorem deserialize_serialize_vector_overflow (ops : KeyOps) (t : Ty) (vec : List t.denote)
    (hloop : t.decoded_by_loop = true)
    (hel : ∀ el ∈ vec, t.wf ops el ∧ t.within_int el)
    (hlen : INT_MAX < vec.length) (hlt : vec.length < SIZE_MOD) (rest : Stream) :
    detail.deserialize ops (.vector t) (detail.serialize (.vector t) vec [] ++ rest)
      = .error .signed_overflow := by
  simp only [detail.serialize, detail.deserialize]
  cases t with
  | trivial n => simp [Ty.decoded_by_loop] at hloop
  | bool =>
    simp only [serialize_vector_at, deserialize_vector_at, serialize_vector_bool_eq,
      List.nil_append, List.append_assoc]
    exact deserialize_vector_bool_overflow vec hlen hlt rest
  | string | X | vector _ | map _ _ | unordered_map _ _ =>
    simp only [serialize_vector_at, deserialize_vector_at]
    rw [serialize_vector_eq _ (fun a s => detail_serialize_append _ a s)]
    simp only [List.nil_append, List.append_assoc]
    exact deserialize_vector_overflow _ _ vec
      (fun el h rest => deserialize_serialize ops _ el (hel el h).1 (hel el h).2 rest)
      hlen hlt rest

theorem two_pow_31_bounds : INT_MAX < two_pow_31 ∧ two_pow_31 < SIZE_MOD := by decide

theorem wf_replicate (ops : KeyOps) (t : Ty) (n : Nat) (x : t.denote) (hn : n < SIZE_MOD)
    (hloop : t.decoded_by_loop = true) (hfits : vector_storage_fits t [x]) (hx : t.wf ops x) :
    Ty.wf ops (.vector t) (List.replicate n x) := by
  simp only [Ty.wf, List.length_replicate]
  refine ⟨hn, ?_, fun el hel => by rw [List.eq_of_mem_replicate hel]; exact hx⟩
  cases t with
  | trivial n => simp [Ty.decoded_by_loop] at hloop
  | bool =>
    intro el hel
    rw [List.eq_of_mem_replicate hel]
    exact hfits x (List.mem_singleton_self x)
  | string | X | vector _ | map _ _ | unordered_map _ _ => exact True.intro

/-- C1 at a `std::vector<bool>` of `2^31` elements: the vector is a value of its type, and
`deserialize` of its encoding, from a stream that was empty before `serialize`, does not
return it: the `int` counter of the loop in `deserialize_vector<bool>` overflows. -/
theorem round_trip_vector_bool_2_31 :
    Ty.wf sample_ops (.vector .bool) vector_bool_2_31
    ∧ deserialize sample_ops (.vector .bool) (serialize (.vector .bool) vector_bool_2_31 [])
        = .error .signed_overflow := by
  have hlen : vector_bool_2_31.length = two_pow_31 := List.length_replicate _ _
  refine ⟨wf_replicate sample_ops .bool two_pow_31 (bool_obj true) two_pow_31_bounds.2 rfl
    (fun el hel => Or.inr (List.mem_singleton.1 hel)) trivial, ?_⟩
  have h := deserialize_serialize_vector_overflow sample_ops .bool vector_bool_2_31 rfl
    (fun el _ => ⟨trivial, trivial⟩) (by rw [hlen]; exact two_pow_31_bounds.1)
    (by rw [hlen]; exact two_pow_31_bounds.2) []
  simpa [deserialize, serialize] using h


/-- C2 at a `std::vector<std::string>` of `2^31` empty strings, followed in the stream by
one more byte: the vector is a value of its type, and `deserialize` of a stream that holds
its encoding and then the byte does not return it. -/
theorem frame_vector_string_2_31 :
    Ty.wf sample_ops (.vector .string) vector_string_2_31
    ∧ deserialize sample_ops (.vector .string)
          (serialize (.vector .string) vector_string_2_31 [] ++ [42])
        = .error .signed_overflow := by
  have hlen : vector_string_2_31.length = two_pow_31 := List.length_replicate _ _
  have hnil : Ty.wf sample_ops .string ([] : List Byte) := by
    simp only [Ty.wf, List.length_nil]; decide
  refine ⟨wf_replicate sample_ops .string two_pow_31 [] two_pow_31_bounds.2 rfl True.intro
    hnil, ?_⟩
  have h := deserialize_serialize_vector_overflow sample_ops .string vector_string_2_31 rfl
    (fun el hel => by
      rw [List.eq_of_mem_replicate hel]
      exact ⟨hnil, trivial⟩)
    (by rw [hlen]; exact two_pow_31_bounds.1)
    (by rw [hlen]; exact two_pow_31_bounds.2) [42]
  simpa [deserialize, serialize] using h

theorem serialize_vector_bool_layout (vec : List (Obj 1)) :
    serialize (.vector .bool) vec []
      = (size_t_obj vec.length).bytes ++ (vec.map (fun b => b.bytes)).flatten := by
  simp only [serialize, detail.serialize, serialize_vector_at, serialize_vector_bool_eq,
    List.nil_append]

theorem serialize_vector_generic_layout (t : Ty) (ht : t.decoded_by_loop = true)
    (vec : List t.denote) :
    serialize (.vector t) vec []
      = (size_t_obj vec.length).bytes ++ (vec.map (fun el => serialize t el [])).flatten := by
  have h : serialize (.vector t) vec [] = serialize_vector_at t (detail.serialize t) vec [] := rfl
  rw [h]
  cases t with
  | trivial n => simp [Ty.decoded_by_loop] at ht
  | bool =>
    show serialize_vector_bool vec [] = _
    rw [serialize_vector_bool_eq]
    rfl
  | string | X | vector _ | map _ _ | unordered_map _ _ =>
    show serialize_vector (detail.serialize _) vec [] = _
    rw [serialize_vector_eq _ (fun a s => detail_serialize_append _ a s)]
    rfl

/-- C7 at a `std::vector<bool>` of `2^31` elements, all `false`: the vector is a value of its
type, `serialize` appends the count and one byte 0 per element, and
`deserialize<std::vector<bool>>` of that encoding does not return the vector. -/
theorem vector_bool_decode_2_31 :
    Ty.wf sample_ops (.vector .bool) vector_false_2_31
    ∧ serialize (.vector .bool) vector_false_2_31 []
        = (size_t_obj two_pow_31).bytes
            ++ (vector_false_2_31.map (fun b => b.bytes)).flatten
    ∧ deserialize sample_ops (.vector .bool) (serialize (.vector .bool) vector_false_2_31 [])
        = .error .signed_overflow := by
  have hlen : vector_false_2_31.length = two_pow_31 := List.length_replicate _ _
  refine ⟨wf_replicate sample_ops .bool two_pow_31 (bool_obj false) two_pow_31_bounds.2 rfl
    (fun el hel => Or.inl (List.mem_singleton.1 hel)) trivial, ?_, ?_⟩
  · rw [serialize_vector_bool_layout, hlen]
  · have h := deserialize_serialize_vector_overflow sample_ops .bool vector_false_2_31 rfl
      (fun el _ => ⟨trivial, trivial⟩) (by rw [hlen]; exact two_pow_31_bounds.1)
      (by rw [hlen]; exact two_pow_31_bounds.2) []
    simpa [deserialize, serialize] using h

/-- C10 at a `std::vector<std::vector<int>>` of `2^31` empty vectors: the vector is a value
of its type, `serialize` appends the outer count and the encoding of each inner vector, and
`deserialize` of that encoding does not restore the vector. -/
theorem vector_vector_decode_2_31 :
    Ty.wf sample_ops (.vector (.vector .int)) vector_vector_int_2_31
    ∧ serialize (.vector (.vector .int)) vector_vector_int_2_31 []
        = (size_t_obj two_pow_31).bytes
            ++ (vector_vector_int_2_31.map (fun el => serialize (.vector .int) el [])).flatten
    ∧ deserialize sample_ops (.vector (.vector .int))
          (serialize (.vector (.vector .int)) vector_vector_int_2_31 [])
        = .error .signed_overflow := by
  have hlen : vector_vector_int_2_31.length = two_pow_31 := List.length_replicate _ _
  have hnil : Ty.wf sample_ops (.vector .int) ([] : List (Obj 4)) := by
    simp only [Ty.wf, vector_storage_fits, List.length_nil]
    exact ⟨by decide, by decide, fun el hel => by cases hel⟩
  have hint : Ty.within_int (.vector .int) ([] : List (Obj 4)) := by
    simp only [Ty.within_int]
    exact ⟨fun h => by simp [Ty.decoded_by_loop] at h, fun el hel => by cases hel⟩
  refine ⟨wf_replicate sample_ops (.vector .int) two_pow_31 [] two_pow_31_bounds.2 rfl True.intro
    hnil,
    ?_, ?_⟩
  · rw [serialize_vector_generic_layout (.vector .int) rfl, hlen]
  · have h := deserialize_serialize_vector_overflow sample_ops (.vector .int)
      vector_vector_int_2_31 rfl
      (fun el hel => by
        rw [List.eq_of_mem_replicate hel]
        exact ⟨hnil, hint⟩)
      (by rw [hlen]; exact two_pow_31_bounds.1)
      (by rw [hlen]; exact two_pow_31_bounds.2) []
    simpa [deserialize, serialize] using h

/-! ## `emplace` keeps the first value of a key -/

theorem lookup_cons_ne {K V : Type} [DecidableEq K] {k k' : K} (h : ¬ k' = k) (v : V)
    (m : List (K × V)) : ((k, v) :: m).lookup k' = m.lookup k' := by
  have hb : (k' == k) = false := by simpa using h
  rw [List.lookup_cons, hb]

theorem lookup_singleton_ne {K V : Type} [DecidableEq K] {k k' : K} (h : ¬ k' = k) (v : V) :
    [(k, v)].lookup k' = none := by
  rw [lookup_cons_ne h]; rfl

theorem lookup_unordered_map_emplace {K V : Type} [DecidableEq K] (eq : K → K → Bool)
    (heq : ∀ a b, eq a b = true ↔ a = b) (k : K) (v : V) (m : List (K × V)) (k' : K) :
    (unordered_map_emplace eq k v m).lookup k' = (m.lookup k').or ([(k, v)].lookup k') := by
  unfold unordered_map_emplace
  split
  · rename_i hany
    by_cases hk : k' = k
    · subst hk
      have : (m.lookup k').isSome := by
        rw [List.lookup_isSome_iff]
        rw [List.any_eq_true] at hany
        obtain ⟨e, he, hek⟩ := hany
        exact ⟨e, he, by simpa using ((heq _ _).1 hek).symm⟩
      cases h : m.lookup k' with
      | none => simp [h] at this
      | some x => simp
    · rw [lookup_singleton_ne hk, Option.or_none]
  · exact List.lookup_append

theorem mem_map_emplace {K V : Type} (less : K → K → Bool) (k : K) (v : V) (m : List (K × V))
    (a : K × V) (h : a ∈ map_emplace less k v m) : a ∈ m ∨ a = (k, v) := by
  induction m with
  | nil => simpa [map_emplace] using h
  | cons e m ih =>
    simp only [map_emplace] at h
    split at h
    · simp only [List.mem_cons] at h ⊢
      rcases h with h | h | h
      · exact Or.inr h
      · exact Or.inl (Or.inl h)
      · exact Or.inl (Or.inr h)
    · split at h
      · simp only [List.mem_cons] at h ⊢
        rcases h with h | h
        · exact Or.inl (Or.inl h)
        · rcases ih h with h | h
          · exact Or.inl (Or.inr h)
          · exact Or.inr h
      · exact Or.inl h

theorem pairwise_map_emplace {K V : Type} (less : K → K → Bool)
    (htrans : ∀ a b c, less a b = true → less b c = true → less a c = true)
    (k : K) (v : V) (m : List (K × V))
    (h : m.Pairwise (fun a b => less a.1 b.1 = true)) :
    (map_emplace less k v m).Pairwise (fun a b => less a.1 b.1 = true) := by
  induction m with
  | nil => simp [map_emplace]
  | cons e m ih =>
    rw [List.pairwise_cons] at h
    simp only [map_emplace]
    split
    · rename_i hke
      refine List.Pairwise.cons ?_ (List.Pairwise.cons h.1 h.2)
      intro a ha
      rcases List.mem_cons.1 ha with ha | ha
      · rw [ha]; exact hke
      · exact htrans _ _ _ hke (h.1 a ha)
    · split
      · rename_i hek
        refine List.Pairwise.cons ?_ (ih h.2)
        intro a ha
        rcases mem_map_emplace less k v m a ha with ha | ha
        · exact h.1 a ha
        · rw [ha]; exact hek
      · exact List.Pairwise.cons h.1 h.2

theorem lookup_map_emplace {K V : Type} [DecidableEq K] (less : K → K → Bool)
    (hirr : ∀ a, less a a = false)
    (htrans : ∀ a b c, less a b = true → less b c = true → less a c = true)
    (htot : ∀ a b, less a b = true ∨ a = b ∨ less b a = true)
    (k : K) (v : V) (m : List (K × V))
    (h : m.Pairwise (fun a b => less a.1 b.1 = true)) (k' : K) :
    (map_emplace less k v m).lookup k' = (m.lookup k').or ([(k, v)].lookup k') := by
  induction m with
  | nil => simp [map_emplace]
  | cons e m ih =>
    obtain ⟨ek, ev⟩ := e
    rw [List.pairwise_cons] at h
    simp only [map_emplace]
    split
    · rename_i hke
      by_cases hk : k' = k
      · subst hk
        have hnone : ((ek, ev) :: m).lookup k' = none := by
          rw [List.lookup_eq_none_iff]
          intro p hp
          have hlt : less k' p.1 = true := by
            rcases List.mem_cons.1 hp with hp | hp
            · rw [hp]; exact hke
            · exact htrans _ _ _ hke (h.1 p hp)
          simp only [bne_iff_ne, ne_eq]
          intro hkp
          rw [← hkp, hirr] at hlt
          exact Bool.false_ne_true hlt
        rw [hnone]
        simp
      · rw [lookup_cons_ne hk, lookup_singleton_ne hk, Option.or_none]
    · split
      · rename_i hnke hek
        by_cases hk : k' = ek
        · subst hk
          simp [List.lookup_cons]
        · rw [lookup_cons_ne hk, lookup_cons_ne hk]
          exact ih h.2
      · rename_i hnke hnek
        have hkek : k = ek := by
          rcases htot k ek with h1 | h1 | h1
          · exact absurd h1 hnke
          · exact h1
          · exact absurd h1 hnek
        subst hkek
        by_cases hk : k' = k
        · subst hk
          simp [List.lookup_cons]
        · rw [lookup_singleton_ne hk, Option.or_none]

theorem lookup_foldl_emplace {K V : Type} [DecidableEq K]
    (emplace : K → V → List (K × V) → List (K × V)) (inv : List (K × V) → Prop)
    (hinv : ∀ k v m, inv m → inv (emplace k v m))
    (hstep : ∀ k v m k', inv m →
      (emplace k v m).lookup k' = (m.lookup k').or ([(k, v)].lookup k'))
    (ps acc : List (K × V)) (hacc : inv acc) (k' : K) :
    (ps.foldl (fun acc e => emplace e.1 e.2 acc) acc).lookup k'
      = (acc.lookup k').or (ps.lookup k') := by
  induction ps generalizing acc with
  | nil => simp [Option.or_none]
  | cons e ps ih =>
    obtain ⟨ek, ev⟩ := e
    simp only [List.foldl_cons]
    rw [ih _ (hinv _ _ _ hacc), hstep _ _ _ _ hacc, Option.or_assoc]
    congr 1
    by_cases hk : k' = ek
    · subst hk; simp [List.lookup_cons]
    · rw [lookup_singleton_ne hk, lookup_cons_ne hk, Option.none_or]

/-! ## The sample comparison objects -/

theorem string_less_irrefl (a : List Byte) : string_less a a = false := by
  induction a with
  | nil => rfl
  | cons x a ih => simp [string_less, ih]

theorem string_less_trans (a b c : List Byte) (hab : string_less a b = true)
    (hbc : string_less b c = true) : string_less a c = true := by
  induction a generalizing b c with
  | nil =>
    cases b with
    | nil => simp [string_less] at hab
    | cons y b =>
      cases c with
      | nil => simp [string_less] at hbc
      | cons z c => rfl
  | cons x a ih =>
    cases b with
    | nil => simp [string_less] at hab
    | cons y b =>
      cases c with
      | nil => simp [string_less] at hbc
      | cons z c =>
        simp only [string_less, Bool.or_eq_true, Bool.and_eq_true, decide_eq_true_eq] at hab hbc ⊢
        rcases hab with hxy | ⟨hxy, hab⟩
        · rcases hbc with hyz | ⟨hyz, _⟩
          · exact Or.inl (lt_trans hxy hyz)
          · exact Or.inl (hyz ▸ hxy)
        · rcases hbc with hyz | ⟨hyz, hbc⟩
          · exact Or.inl (hxy ▸ hyz)
          · exact Or.inr ⟨hxy.trans hyz, ih b c hab hbc⟩

theorem string_less_total (a b : List Byte) :
    string_less a b = true ∨ a = b ∨ string_less b a = true := by
  induction a generalizing b with
  | nil =>
    cases b with
    | nil => exact Or.inr (Or.inl rfl)
    | cons y b => exact Or.inl rfl
  | cons x a ih =>
    cases b with
    | nil => exact Or.inr (Or.inr rfl)
    | cons y b =>
      simp only [string_less, Bool.or_eq_true, Bool.and_eq_true, decide_eq_true_eq,
        List.cons.injEq]
      rcases lt_trichotomy x y with h | h | h
      · exact Or.inl (Or.inl h)
      · rcases ih b with h' | h' | h'
        · exact Or.inl (Or.inr ⟨h, h'⟩)
        · exact Or.inr (Or.inl ⟨h, h'⟩)
        · exact Or.inr (Or.inr (Or.inr ⟨h.symm, h'⟩))
      · exact Or.inr (Or.inr (Or.inl h))

theorem sample_ops_lawful_string : sample_ops.lawful .string :=
  ⟨string_less_irrefl, string_less_trans, string_less_total, fun a b => by
    simp [sample_ops]⟩

/-! ## `deserialize_map` on a pair list -/

theorem pair_list_stream_eq (K V : Ty) (ps : List (K.denote × V.denote)) :
    pair_list_stream K V ps = (size_t_obj ps.length).bytes
      ++ (ps.map (fun e => detail.serialize K e.1 [] ++ detail.serialize V e.2 [])).flatten := by
  show serialize_map (detail.serialize K) (detail.serialize V) ps [] = _
  rw [serialize_map_eq _ _ (fun a s => detail_serialize_append K a s)
    (fun a s => detail_serialize_append V a s)]
  simp

theorem deserialize_pair_list (ops : KeyOps) (K V : Ty) (ps : List (K.denote × V.denote))
    (emplace : K.denote → V.denote → List (K.denote × V.denote) → List (K.denote × V.denote))
    (hlen : ps.length ≤ INT_MAX)
    (hdec : ∀ e ∈ ps, (K.wf ops e.1 ∧ K.within_int e.1) ∧ (V.wf ops e.2 ∧ V.within_int e.2))
    (rest : Stream) :
    deserialize_map (detail.deserialize ops K) (detail.deserialize ops V) emplace
        (pair_list_stream K V ps ++ rest)
      = .ok (ps.foldl (fun acc e => emplace e.1 e.2 acc) [], rest) := by
  rw [pair_list_stream_eq, List.append_assoc]
  exact deserialize_map_append _ _ emplace (fun a => detail.serialize K a [])
    (fun a => detail.serialize V a []) ps
    (fun e he rest => deserialize_serialize ops K e.1 (hdec e he).1.1 (hdec e he).1.2 rest)
    (fun e he rest => deserialize_serialize ops V e.2 (hdec e he).2.1 (hdec e he).2.2 rest)
    hlen rest

/-- C6, as the code has it: when `deserialize_map` decodes an input whose pair list `ps`
(of at most `INT_MAX` pairs of values of the key and mapped types) contains a key more than
once, the resulting `std::map` and the resulting `std::unordered_map` associate that key
with the value of its first occurrence in the input: for every key `k`, looking `k` up in
the result gives the value of the first pair of `ps` with the key `k`.  The comparison
objects of the key type are a strict total order and equality. -/
theorem deserialize_map_first_wins (ops : KeyOps) (K V : Ty) (ps : List (K.denote × V.denote))
    (rest : Stream) (k : K.denote) (hops : ops.lawful K) (hlen : ps.length ≤ INT_MAX)
    (hdec : ∀ e ∈ ps, (K.wf ops e.1 ∧ K.within_int e.1) ∧ (V.wf ops e.2 ∧ V.within_int e.2)) :
    ∃ m m' : List (K.denote × V.denote),
      deserialize ops (.map K V) (pair_list_stream K V ps ++ rest) = .ok (m, rest)
      ∧ deserialize ops (.unordered_map K V) (pair_list_stream K V ps ++ rest) = .ok (m', rest)
      ∧ m.lookup k = ps.lookup k ∧ m'.lookup k = ps.lookup k := by
  obtain ⟨hirr, htrans, htot, heq⟩ := hops
  refine ⟨_, _, deserialize_pair_list ops K V ps _ hlen hdec rest,
    deserialize_pair_list ops K V ps _ hlen hdec rest, ?_, ?_⟩
  · rw [lookup_foldl_emplace (map_emplace (ops.less K))
      (fun m => m.Pairwise (fun a b => ops.less K a.1 b.1 = true))
      (fun k v m hm => pairwise_map_emplace _ htrans k v m hm)
      (fun k v m k' hm => lookup_map_emplace _ hirr htrans htot k v m hm k')
      ps [] List.Pairwise.nil k]
    simp
  · rw [lookup_foldl_emplace (unordered_map_emplace (ops.equal_to K)) (fun _ => True)
      (fun _ _ _ _ => trivial)
      (fun k v m k' _ => lookup_unordered_map_emplace _ heq k v m k')
      ps [] trivial k]
    simp

/-- The witness of C6: the pair list `("one", 1), ("two", 2), ("one", 3)`; both maps
associate `"one"` with 1. -/
theorem deserialize_map_first_wins_witness :
    ∃ m m' : List (Ty.string.denote × Ty.int.denote),
      deserialize sample_ops (.map .string .int) (pair_list_stream .string .int dup_pairs ++ [])
        = .ok (m, [])
      ∧ deserialize sample_ops (.unordered_map .string .int)
          (pair_list_stream .string .int dup_pairs ++ []) = .ok (m', [])
      ∧ @List.lookup Ty.string.denote Ty.int.denote _ string_one m = some (int_obj 1)
      ∧ @List.lookup Ty.string.denote Ty.int.denote _ string_one m' = some (int_obj 1) :=
  deserialize_map_first_wins sample_ops .string .int dup_pairs [] string_one
    sample_ops_lawful_string (by decide) (by decide)

/-- C6 as stated fails: the input with the pair list `("one", 1), ("two", 2), ("one", 3)` is
decoded to the `std::map` with the entries `("one", 1), ("two", 2)`, and to the
`std::unordered_map` with the same entries; the value of the last occurrence of the key
`"one"` is 3, the value that the results associate with it is 1. -/
theorem deserialize_map_not_last_wins :
    deserialize sample_ops (.map .string .int) (pair_list_stream .string .int dup_pairs)
        = .ok ([(string_one, int_obj 1), (string_two, int_obj 2)], [])
    ∧ deserialize sample_ops (.unordered_map .string .int)
          (pair_list_stream .string .int dup_pairs)
        = .ok ([(string_one, int_obj 1), (string_two, int_obj 2)], [])
    ∧ dup_pairs.reverse.lookup string_one = some (int_obj 3)
    ∧ [(string_one, int_obj 1), (string_two, int_obj 2)].lookup string_one
        ≠ some (int_obj 3) := by
  have h1 := deserialize_pair_list sample_ops .string .int dup_pairs
    (map_emplace (sample_ops.less .string)) (by decide) (by decide) []
  have h2 := deserialize_pair_list sample_ops .string .int dup_pairs
    (unordered_map_emplace (sample_ops.equal_to .string)) (by decide) (by decide) []
  rw [List.append_nil] at h1 h2
  exact ⟨h1, h2, by decide, by decide⟩

/-- A map with more than `INT_MAX` entries is not decoded: after the entry of index
`INT_MAX` the counter of the loop in `deserialize_map` overflows. -/
theorem deserialize_serialize_map_overflow (ops : KeyOps) (K V : Ty)
    (m : List (K.denote × V.denote))
    (emplace : K.denote → V.denote → List (K.denote × V.denote) → List (K.denote × V.denote))
    (hdec : ∀ e ∈ m, (K.wf ops e.1 ∧ K.within_int e.1) ∧ (V.wf ops e.2 ∧ V.within_int e.2))
    (hlen : INT_MAX < m.length) (hlt : m.length < SIZE_MOD) (rest : Stream) :
    deserialize_map (detail.deserialize ops K) (detail.deserialize ops V) emplace
        (serialize_map (detail.serialize K) (detail.serialize V) m [] ++ rest)
      = .error .signed_overflow := by
  rw [serialize_map_eq _ _ (fun a s => detail_serialize_append K a s)
    (fun a s => detail_serialize_append V a s)]
  simp only [List.nil_append, List.append_assoc]
  exact deserialize_map_overflow _ _ emplace (fun a => detail.serialize K a [])
    (fun a => detail.serialize V a []) m
    (fun e he rest => deserialize_serialize ops K e.1 (hdec e he).1.1 (hdec e he).1.2 rest)
    (fun e he rest => deserialize_serialize ops V e.2 (hdec e he).2.1 (hdec e he).2.2 rest)
    hlen hlt rest

theorem length_map_size_t_bool_2_31 : map_size_t_bool_2_31.length = two_pow_31 := by
  simp only [map_size_t_bool_2_31, List.length_map, List.length_range]

theorem sample_less_size_t_obj {i j : Nat} (hi : i < SIZE_MOD) (hj : j < SIZE_MOD) :
    sample_ops.less .size_t (size_t_obj i) (size_t_obj j) = decide (i < j) := by
  have h1 := size_t_value_obj_of_lt hi
  have h2 := size_t_value_obj_of_lt hj
  simp only [size_t_value] at h1 h2
  simp only [sample_ops, h1, h2]

theorem wf_map_size_t_bool_2_31 : Ty.wf sample_ops (.map .size_t .bool) map_size_t_bool_2_31 := by
  simp only [Ty.wf]
  refine ⟨?_, fun _ _ => ⟨trivial, trivial⟩, ?_⟩
  · rw [length_map_size_t_bool_2_31]; exact two_pow_31_bounds.2
  · simp only [map_size_t_bool_2_31]
    rw [List.pairwise_map]
    refine List.Pairwise.imp_of_mem ?_ (List.pairwise_lt_range two_pow_31)
    intro i j hi hj hij
    have hi' : i < SIZE_MOD := Nat.lt_trans (List.mem_range.1 hi) two_pow_31_bounds.2
    have hj' : j < SIZE_MOD := Nat.lt_trans (List.mem_range.1 hj) two_pow_31_bounds.2
    rw [sample_less_size_t_obj hi' hj', sample_less_size_t_obj hj' hi']
    exact ⟨decide_eq_true hij, decide_eq_false (Nat.lt_asymm hij)⟩

/-- C5 at a `std::map<size_t, bool>` with the `2^31` keys `0, ..., 2^31 - 1`: the map is a
value of its type (its keys are distinct, in ascending order), and `deserialize_map` of what
`serialize_map` wrote for it does not yield a map. -/
theorem map_round_trip_2_31 :
    Ty.wf sample_ops (.map .size_t .bool) map_size_t_bool_2_31
    ∧ deserialize sample_ops (.map .size_t .bool)
          (serialize (.map .size_t .bool) map_size_t_bool_2_31 [])
        = .error .signed_overflow := by
  refine ⟨wf_map_size_t_bool_2_31, ?_⟩
  have h := deserialize_serialize_map_overflow sample_ops .size_t .bool map_size_t_bool_2_31
    (map_emplace (sample_ops.less .size_t)) (fun _ _ => ⟨⟨trivial, trivial⟩, trivial, trivial⟩)
    (by rw [length_map_size_t_bool_2_31]; exact two_pow_31_bounds.1)
    (by rw [length_map_size_t_bool_2_31]; exact two_pow_31_bounds.2) []
  rw [List.append_nil] at h
  exact h

/-! ## The custom serializer of the tests -/

/-- C12: the custom serializer of the test type `X` is used verbatim, with no framing. For
every `int` object `n` and every stream `s`, `serialize(X(n))` appends exactly the bytes that
`serialize(n)` appends, `sizeof(int) = 4` bytes and nothing else, and `deserialize<X>` of a
stream that holds those bytes, whatever follows them, returns `X(n)` and leaves what
follows. -/
theorem custom_serializer_verbatim (ops : KeyOps) (n : Obj 4) (s rest : Stream) :
    serialize .X ⟨n⟩ s = serialize .int n s
    ∧ serialize .X ⟨n⟩ s = s ++ n.bytes
    ∧ (serialize .X ⟨n⟩ []).length = 4
    ∧ deserialize ops .X (serialize .X ⟨n⟩ [] ++ rest) = .ok (⟨n⟩, rest) := by
  refine ⟨rfl, rfl, ?_, ?_⟩
  · simp [serialize, detail.serialize, serialize_object, serializer_X_serialize,
      serialize_object_trivial, n.size_eq]
  · simp [serialize, deserialize, detail.serialize, detail.deserialize, serialize_object,
      serializer_X_serialize, deserialize_object, serializer_X_deserialize,
      serialize_object_trivial, deserialize_object_trivial_append]

/-! ## Empty collections -/

theorem for_int_zero {σ : Type} (body : σ → Except Fault σ) (st : σ) :
    for_int 0 body 0 st = .ok st := for_int_done 0 body st

theorem deserialize_size_t_zero (rest : Stream) :
    deserialize_size_t ((size_t_obj 0).bytes ++ rest) = .ok (0, rest) :=
  deserialize_size_t_append (by decide) rest

theorem deserialize_vector_at_empty (t : Ty) (de : Stream → Except Fault (t.denote × Stream)) :
    deserialize_vector_at t de (size_t_obj 0).bytes = .ok ([], []) := by
  have h := deserialize_size_t_zero []
  rw [List.append_nil] at h
  cases t with
  | trivial n =>
    simp only [deserialize_vector_at, deserialize_vector_trivial, h]
    simp [PTRDIFF_MAX]
  | bool =>
    simp only [deserialize_vector_at, deserialize_vector_bool, h, for_int_zero]
  | string | X | vector _ | map _ _ | unordered_map _ _ =>
    simp only [deserialize_vector_at, deserialize_vector, h, for_int_zero]

/-- C15: empty collections round-trip to empty. The empty vector of any element type `t` and
the empty string each encode to the 8 bytes of the count 0 (eight zero bytes) and nothing
else, and `deserialize` of a stream that holds exactly those 8 bytes returns the empty vector,
respectively the empty string, and leaves the stream empty. -/
theorem empty_round_trip (ops : KeyOps) (t : Ty) :
    serialize (.vector t) [] [] = [0, 0, 0, 0, 0, 0, 0, 0]
    ∧ serialize .string [] [] = [0, 0, 0, 0, 0, 0, 0, 0]
    ∧ serialize .size_t (size_t_obj 0) [] = [0, 0, 0, 0, 0, 0, 0, 0]
    ∧ deserialize ops (.vector t) [0, 0, 0, 0, 0, 0, 0, 0] = .ok ([], [])
    ∧ deserialize ops .string [0, 0, 0, 0, 0, 0, 0, 0] = .ok ([], []) := by
  have hz : (size_t_obj 0).bytes = [0, 0, 0, 0, 0, 0, 0, 0] := by decide
  refine ⟨?_, ?_, ?_, ?_, ?_⟩
  · have h : serialize (.vector t) [] [] = serialize_vector_at t (detail.serialize t) [] [] :=
      rfl
    rw [h, ← hz]
    cases t <;> rfl
  · rw [← hz]; rfl
  · rw [← hz]; rfl
  · rw [← hz]
    exact deserialize_vector_at_empty t _
  · rw [← hz]
    have h := @deserialize_object_string_append [] (by decide) []
    simpa [deserialize, detail.deserialize] using h

/-! ## The layout and the steps of a map -/

theorem serialize_map_layout (K V : Ty) (m : List (K.denote × V.denote)) :
    serialize (.map K V) m []
        = (size_t_obj m.length).bytes
            ++ (m.map (fun e => serialize K e.1 [] ++ serialize V e.2 [])).flatten
    ∧ serialize (.unordered_map K V) m []
        = (size_t_obj m.length).bytes
            ++ (m.map (fun e => serialize K e.1 [] ++ serialize V e.2 [])).flatten := by
  have h := pair_list_stream_eq K V m
  exact ⟨h, h⟩

theorem length_unordered_map_size_t_bool_2_31 :
    unordered_map_size_t_bool_2_31.length = two_pow_31 := by
  simp only [unordered_map_size_t_bool_2_31, List.length_map, List.length_range]

theorem size_t_obj_injective {i j : Nat} (hi : i < SIZE_MOD) (hj : j < SIZE_MOD)
    (h : size_t_obj i = size_t_obj j) : i = j := by
  rw [← size_t_value_obj_of_lt hi, ← size_t_value_obj_of_lt hj, h]

theorem wf_unordered_map_size_t_bool_2_31 :
    Ty.wf sample_ops (.unordered_map .size_t .bool) unordered_map_size_t_bool_2_31 := by
  simp only [Ty.wf]
  refine ⟨?_, fun _ _ => ⟨trivial, trivial⟩, ?_⟩
  · rw [length_unordered_map_size_t_bool_2_31]; exact two_pow_31_bounds.2
  · simp only [unordered_map_size_t_bool_2_31]
    rw [List.pairwise_map]
    refine List.Pairwise.imp_of_mem ?_ (List.pairwise_lt_range two_pow_31)
    intro i j hi hj hij
    have hi' : i < SIZE_MOD := Nat.lt_trans (List.mem_range.1 hi) two_pow_31_bounds.2
    have hj' : j < SIZE_MOD := Nat.lt_trans (List.mem_range.1 hj) two_pow_31_bounds.2
    simp only [sample_ops, decide_eq_false_iff_not]
    intro h
    exact absurd (size_t_obj_injective hi' hj' h) (Nat.ne_of_lt hij)

/-- C11 at a `std::unordered_map<size_t, bool>` with the `2^31` keys `0, ..., 2^31 - 1`: the
map is a value of its type, `serialize` appends the pair count and then, entry by entry, the
encoding of the key followed by the encoding of the value, and nothing else; `deserialize_map`
of that encoding does not complete its steps into a map: the `int` counter overflows. -/
theorem map_decode_steps_2_31 :
    Ty.wf sample_ops (.unordered_map .size_t .bool) unordered_map_size_t_bool_2_31
    ∧ serialize (.unordered_map .size_t .bool) unordered_map_size_t_bool_2_31 []
        = (size_t_obj two_pow_31).bytes
            ++ (unordered_map_size_t_bool_2_31.map
                (fun e => serialize .size_t e.1 [] ++ serialize .bool e.2 [])).flatten
    ∧ deserialize sample_ops (.unordered_map .size_t .bool)
          (serialize (.unordered_map .size_t .bool) unordered_map_size_t_bool_2_31 [])
        = .error .signed_overflow := by
  refine ⟨wf_unordered_map_size_t_bool_2_31, ?_, ?_⟩
  · rw [(serialize_map_layout .size_t .bool unordered_map_size_t_bool_2_31).2,
      length_unordered_map_size_t_bool_2_31]
    rfl
  · have h := deserialize_serialize_map_overflow sample_ops .size_t .bool
      unordered_map_size_t_bool_2_31 (unordered_map_emplace (sample_ops.equal_to .size_t))
      (fun _ _ => ⟨⟨trivial, trivial⟩, trivial, trivial⟩)
      (by rw [length_unordered_map_size_t_bool_2_31]; exact two_pow_31_bounds.1)
      (by rw [length_unordered_map_size_t_bool_2_31]; exact two_pow_31_bounds.2) []
    rw [List.append_nil] at h
    exact h

/-! ## The count of a sequence beyond the range of `int` -/

theorem two_pow_32_bounds : INT_MAX < two_pow_32 ∧ two_pow_32 < SIZE_MOD := by decide

/-- C14 at the count `N = 2^32`: the prefix holds `N`, the stream holds the encodings of `N`
elements after it, and neither the loop of the generic `deserialize_vector` (on a
`std::vector<X>`) nor the loop of `deserialize_vector<bool>` returns a vector of `N` elements:
after the element of index `INT_MAX` the `int` counter overflows. -/
theorem vector_count_beyond_int :
    size_t_value (size_t_obj two_pow_32) = two_pow_32
    ∧ serialize (.vector .X) vector_X_2_32 []
        = (size_t_obj two_pow_32).bytes
            ++ (vector_X_2_32.map (fun el => serialize .X el [])).flatten
    ∧ deserialize sample_ops (.vector .X) (serialize (.vector .X) vector_X_2_32 [])
        = .error .signed_overflow
    ∧ serialize (.vector .bool) vector_bool_2_32 []
        = (size_t_obj two_pow_32).bytes
            ++ (vector_bool_2_32.map (fun el => serialize .bool el [])).flatten
    ∧ deserialize sample_ops (.vector .bool) (serialize (.vector .bool) vector_bool_2_32 [])
        = .error .signed_overflow := by
  have hlenX : vector_X_2_32.length = two_pow_32 := List.length_replicate _ _
  have hlenB : vector_bool_2_32.length = two_pow_32 := List.length_replicate _ _
  refine ⟨size_t_value_obj_of_lt two_pow_32_bounds.2, ?_, ?_, ?_, ?_⟩
  · rw [serialize_vector_generic_layout .X rfl, hlenX]
  · have h := deserialize_serialize_vector_overflow sample_ops .X vector_X_2_32 rfl
      (fun el _ => ⟨trivial, trivial⟩) (by rw [hlenX]; exact two_pow_32_bounds.1)
      (by rw [hlenX]; exact two_pow_32_bounds.2) []
    rw [List.append_nil] at h
    exact h
  · rw [serialize_vector_generic_layout .bool rfl, hlenB]
  · have h := deserialize_serialize_vector_overflow sample_ops .bool vector_bool_2_32 rfl
      (fun el _ => ⟨trivial, trivial⟩) (by rw [hlenB]; exact two_pow_32_bounds.1)
      (by rw [hlenB]; exact two_pow_32_bounds.2) []
    rw [List.append_nil] at h
    exact h

/-! ## The two overloads for vectors of trivial objects -/

theorem size_t_obj_value (x : Obj 8) : size_t_obj (size_t_value x) = x := by
  obtain ⟨bytes, hsize⟩ := x
  match bytes, hsize with
  | [b0, b1, b2, b3, b4, b5, b6, b7], _ =>
    apply Obj.eq_of_bytes
    simp only [size_t_value, size_t_obj, le_value, le_byte, List.cons.injEq, and_true]
    have h0 := b0.isLt
    have h1 := b1.isLt
    have h2 := b2.isLt
    have h3 := b3.isLt
    have h4 := b4.isLt
    have h5 := b5.isLt
    have h6 := b6.isLt
    have h7 := b7.isLt
    refine ⟨?_, ?_, ?_, ?_, ?_, ?_, ?_, ?_⟩ <;> apply Fin.ext <;> simp only [] <;> omega

theorem size_t_value_lt (x : Obj 8) : size_t_value x < SIZE_MOD := by
  have h := size_t_value_obj (size_t_value x)
  rw [size_t_obj_value] at h
  have hpos : 0 < SIZE_MOD := by decide
  rw [h]
  exact Nat.mod_lt _ hpos

theorem deserialize_size_t_obj (cnt : Obj 8) (tail : Stream) :
    deserialize_size_t (cnt.bytes ++ tail) = .ok (size_t_value cnt, tail) := by
  simp only [deserialize_size_t, deserialize_object_trivial_append]

theorem flatten_copy_n (n : Nat) (tail : Stream) (N : Nat) (h : N * n ≤ tail.length) :
    ((List.range N).map (fun i => (Obj.copy_n n (tail.drop (i * n))).bytes)).flatten
      = tail.take (N * n) := by
  induction N with
  | zero => simp
  | succ N ih =>
    have hmul : (N + 1) * n = N * n + n := Nat.succ_mul N n
    have hN : N * n ≤ tail.length := by omega
    have hn : n ≤ (tail.drop (N * n)).length := by
      rw [List.length_drop]; omega
    rw [List.range_succ, List.map_append, List.flatten_append, ih hN, hmul, List.take_add]
    simp only [List.map_cons, List.map_nil, List.flatten_cons, List.flatten_nil,
      List.append_nil, copy_n_bytes n _ hn]

theorem deserialize_string_canonical (ops : KeyOps) (cnt : Obj 8) (tail : Stream)
    (hL : size_t_value cnt ≤ tail.length) :
    deserialize ops .string (cnt.bytes ++ tail)
        = .ok (tail.take (size_t_value cnt), tail.drop (size_t_value cnt))
    ∧ serialize .string (tail.take (size_t_value cnt)) []
        = cnt.bytes ++ tail.take (size_t_value cnt) := by
  constructor
  · simp only [deserialize, detail.deserialize, deserialize_object_string,
      deserialize_size_t_obj, if_pos hL]
  · show serialize_object_string _ [] = _
    simp only [serialize_object_string, serialize_size_t_eq, List.nil_append,
      List.length_take, Nat.min_eq_left hL, size_t_obj_value]

theorem deserialize_vector_trivial_canonical (ops : KeyOps) (n : Nat) (cnt : Obj 8)
    (tail : Stream) (hN : size_t_value cnt * n ≤ tail.length)
    (hstream : (cnt.bytes ++ tail).length ≤ PTRDIFF_MAX) :
    ∃ vec : List (Obj n),
      deserialize ops (.vector (.trivial n)) (cnt.bytes ++ tail)
        = .ok (vec, tail.drop (size_t_value cnt * n))
      ∧ vec.length = size_t_value cnt
      ∧ serialize (.vector (.trivial n)) vec []
        = cnt.bytes ++ tail.take (size_t_value cnt * n) := by
  have hbig : ¬ PTRDIFF_MAX < size_t_value cnt * n := by
    rw [List.length_append] at hstream
    omega
  refine ⟨(List.range (size_t_value cnt)).map (fun i => Obj.copy_n n (tail.drop (i * n))),
    ?_, by simp, ?_⟩
  · simp only [deserialize, detail.deserialize, deserialize_vector_at,
      deserialize_vector_trivial, deserialize_size_t_obj, if_neg hbig, if_pos hN]
  · show serialize_vector_trivial _ [] = _
    rw [serialize_vector_trivial_eq, vector_data_eq_flatten, List.nil_append, List.map_map]
    simp only [List.length_map, List.length_range, size_t_obj_value]
    congr 1
    exact flatten_copy_n n tail (size_t_value cnt) hN

/-- C18: text and fixed-layout sequence encodings are canonical. For every stream (a
`std::vector<char>`, of at most `PTRDIFF_MAX` bytes) whose first 8 bytes `cnt` encode a length
`L`, respectively a count `N`, and which holds at least `L`, respectively `N * n`, further
bytes, `deserialize<std::string>`, respectively `deserialize<std::vector<T>>` for a trivial
type `T` of size `n` other than `bool`, returns a value and leaves the bytes after those
`L`, respectively `N * n`; serializing the returned value into an empty stream reproduces
exactly the bytes that were consumed. -/
theorem canonical_encodings (ops : KeyOps) (n : Nat) (cnt_s cnt_v : Obj 8)
    (tail_s tail_v : Stream) (hL : size_t_value cnt_s ≤ tail_s.length)
    (hN : size_t_value cnt_v * n ≤ tail_v.length)
    (hstream : (cnt_v.bytes ++ tail_v).length ≤ PTRDIFF_MAX) :
    (∃ str : List Byte,
      deserialize ops .string (cnt_s.bytes ++ tail_s)
        = .ok (str, tail_s.drop (size_t_value cnt_s))
      ∧ serialize .string str [] = cnt_s.bytes ++ tail_s.take (size_t_value cnt_s))
    ∧ (∃ vec : List (Obj n),
      deserialize ops (.vector (.trivial n)) (cnt_v.bytes ++ tail_v)
        = .ok (vec, tail_v.drop (size_t_value cnt_v * n))
      ∧ vec.length = size_t_value cnt_v
      ∧ serialize (.vector (.trivial n)) vec []
        = cnt_v.bytes ++ tail_v.take (size_t_value cnt_v * n)) :=
  ⟨⟨_, deserialize_string_canonical ops cnt_s tail_s hL⟩,
    deserialize_vector_trivial_canonical ops n cnt_v tail_v hN hstream⟩

/-- The witness of C18: the length 2 followed by three bytes, and the count 2 of `int`
followed by nine bytes. -/
theorem canonical_encodings_witness :
    (∃ str : List Byte,
      deserialize sample_ops .string ((size_t_obj 2).bytes ++ [104, 105, 7])
        = .ok (str, [7])
      ∧ serialize .string str [] = (size_t_obj 2).bytes ++ [104, 105])
    ∧ (∃ vec : List (Obj 4),
      deserialize sample_ops (.vector (.trivial 4))
          ((size_t_obj 2).bytes ++ [1, 0, 0, 0, 255, 255, 255, 255, 7])
        = .ok (vec, [7])
      ∧ vec.length = 2
      ∧ serialize (.vector (.trivial 4)) vec []
        = (size_t_obj 2).bytes ++ [1, 0, 0, 0, 255, 255, 255, 255]) :=
  canonical_encodings sample_ops 4 (size_t_obj 2) (size_t_obj 2) [104, 105, 7]
    [1, 0, 0, 0, 255, 255, 255, 255, 7] (by decide) (by decide) (by decide)

/-! ## The encoding of a `std::map` depends on its pairs alone -/

theorem perm_map_emplace {K V : Type} (less : K → K → Bool)
    (htot : ∀ a b, less a b = true ∨ a = b ∨ less b a = true)
    (k : K) (v : V) (m : List (K × V)) (hk : ∀ e ∈ m, e.1 ≠ k) :
    (map_emplace less k v m).Perm ((k, v) :: m) := by
  induction m with
  | nil => exact List.Perm.refl _
  | cons e m ih =>
    simp only [map_emplace]
    split
    · exact List.Perm.refl _
    · split
      · exact ((ih (fun y hy => hk y (List.mem_cons_of_mem _ hy))).cons e).trans
          (List.Perm.swap _ _ _)
      · rename_i h1 h2
        rcases htot k e.1 with h | h | h
        · exact absurd h h1
        · exact absurd h.symm (hk e (List.mem_cons_self _ _))
        · exact absurd h h2

theorem perm_foldl_map_emplace {K V : Type} (less : K → K → Bool)
    (htot : ∀ a b, less a b = true ∨ a = b ∨ less b a = true)
    (ps acc : List (K × V)) (hkeys : (acc ++ ps).Pairwise (fun a b => a.1 ≠ b.1)) :
    (ps.foldl (fun m e => map_emplace less e.1 e.2 m) acc).Perm (acc ++ ps) := by
  induction ps generalizing acc with
  | nil => simp
  | cons e ps ih =>
    simp only [List.foldl_cons]
    have hk : ∀ a ∈ acc, a.1 ≠ e.1 := by
      intro a ha
      rw [List.pairwise_append] at hkeys
      exact hkeys.2.2 a ha e (List.mem_cons_self _ _)
    have hp : (map_emplace less e.1 e.2 acc).Perm (acc ++ [e]) :=
      (perm_map_emplace less htot e.1 e.2 acc hk).trans
        (List.perm_append_comm : ([e] ++ acc).Perm (acc ++ [e]))
    have hkeys' : (map_emplace less e.1 e.2 acc ++ ps).Pairwise (fun a b => a.1 ≠ b.1) := by
      have hp' : (map_emplace less e.1 e.2 acc ++ ps).Perm (acc ++ e :: ps) := by
        have := hp.append_right ps
        simpa using this
      exact (hp'.pairwise_iff (fun h => Ne.symm h)).2 hkeys
    refine (ih _ hkeys').trans ?_
    have := hp.append_right ps
    simpa using this

theorem pairwise_foldl_map_emplace {K V : Type} (less : K → K → Bool)
    (htrans : ∀ a b c, less a b = true → less b c = true → less a c = true)
    (ps acc : List (K × V)) (hacc : acc.Pairwise (fun a b => less a.1 b.1 = true)) :
    (ps.foldl (fun m e => map_emplace less e.1 e.2 m) acc).Pairwise
      (fun a b => less a.1 b.1 = true) := by
  induction ps generalizing acc with
  | nil => exact hacc
  | cons e ps ih => exact ih _ (pairwise_map_emplace less htrans e.1 e.2 acc hacc)

theorem map_of_insertions_perm {K V : Type} (less : K → K → Bool)
    (hirr : ∀ a, less a a = false)
    (htrans : ∀ a b c, less a b = true → less b c = true → less a c = true)
    (htot : ∀ a b, less a b = true ∨ a = b ∨ less b a = true)
    (ps qs : List (K × V)) (hperm : ps.Perm qs)
    (hkeys : ps.Pairwise (fun a b => a.1 ≠ b.1)) :
    map_of_insertions less ps = map_of_insertions less qs := by
  have hkeys' : qs.Pairwise (fun a b => a.1 ≠ b.1) :=
    (hperm.pairwise_iff (fun h => Ne.symm h)).1 hkeys
  have h1 := perm_foldl_map_emplace less htot ps [] (by simpa using hkeys)
  have h2 := perm_foldl_map_emplace less htot qs [] (by simpa using hkeys')
  have s1 := pairwise_foldl_map_emplace less htrans ps [] List.Pairwise.nil
  have s2 := pairwise_foldl_map_emplace less htrans qs [] List.Pairwise.nil
  haveI : IsAntisymm (K × V) (fun a b => less a.1 b.1 = true) :=
    ⟨fun a b hab hba => by
      have := htrans _ _ _ hab hba
      rw [hirr] at this
      exact absurd this Bool.false_ne_true⟩
  simp only [List.nil_append] at h1 h2
  exact List.eq_of_perm_of_sorted ((h1.trans hperm).trans h2.symm) s1 s2

/-- C19: the encoding of a `std::map` is determined by its pairs. For a key type on which
`std::less` is a strict total order, two maps that are built by inserting the same pairs
(with pairwise distinct keys) in different orders `ps` and `qs` have byte-identical
encodings: the map holds exactly the inserted pairs, in ascending key order, and `serialize`
appends the count and then the pairs in that order. -/
theorem map_encoding_deterministic (ops : KeyOps) (K V : Ty)
    (ps qs : List (K.denote × V.denote)) (hops : ops.lawful K) (hperm : ps.Perm qs)
    (hkeys : ps.Pairwise (fun a b => a.1 ≠ b.1)) :
    serialize (.map K V) (map_of_insertions (ops.less K) ps) []
        = serialize (.map K V) (map_of_insertions (ops.less K) qs) []
    ∧ (map_of_insertions (ops.less K) ps).Perm ps
    ∧ (map_of_insertions (ops.less K) ps).Pairwise (fun a b => ops.less K a.1 b.1 = true)
    ∧ serialize (.map K V) (map_of_insertions (ops.less K) ps) []
        = (size_t_obj ps.length).bytes
            ++ ((map_of_insertions (ops.less K) ps).map
                (fun e => serialize K e.1 [] ++ serialize V e.2 [])).flatten := by
  obtain ⟨hirr, htrans, htot, _⟩ := hops
  have hp : (map_of_insertions (ops.less K) ps).Perm ps := by
    have := perm_foldl_map_emplace (ops.less K) htot ps [] (by simpa using hkeys)
    simpa [map_of_insertions] using this
  refine ⟨?_, hp, pairwise_foldl_map_emplace (ops.less K) htrans ps [] List.Pairwise.nil, ?_⟩
  · rw [map_of_insertions_perm (ops.less K) hirr htrans htot ps qs hperm hkeys]
  · rw [(serialize_map_layout K V _).1, hp.length_eq]

/-- The witness of C19: the pairs `("one", 1), ("two", 2), ("three", 3)` inserted in two
orders. -/
theorem map_encoding_deterministic_witness :
    serialize (.map .string .int) (map_of_insertions (sample_ops.less .string) test_pairs) []
        = serialize (.map .string .int)
            (map_of_insertions (sample_ops.less .string) test_pairs_reordered) []
    ∧ (map_of_insertions (sample_ops.less .string) test_pairs).Perm test_pairs
    ∧ (map_of_insertions (sample_ops.less .string) test_pairs).Pairwise
        (fun a b => sample_ops.less .string a.1 b.1 = true)
    ∧ serialize (.map .string .int) (map_of_insertions (sample_ops.less .string) test_pairs) []
        = (size_t_obj test_pairs.length).bytes
            ++ ((map_of_insertions (sample_ops.less .string) test_pairs).map
                (fun e => serialize .string e.1 [] ++ serialize .int e.2 [])).flatten :=
  map_encoding_deterministic sample_ops .string .int test_pairs test_pairs_reordered
    sample_ops_lawful_string (by decide) (by decide)

end serialization
